import Mathlib

/-!
Shallow embedding of the CHEDS analytics dashboard
(`cheds_analytics_dashboard.py`): the loading/normalization layer
(CSV parsing as done by `pd.read_csv`, filename-to-product-id
derivation, session-state registry), the aggregation layer
(overview metrics, domain summaries, grouped sums, value counts),
and the export/round-trip path (`to_csv` + re-parse).

Conventions of the embedding:
* strings are `List Char` (`Str`);
* a parsed cell is an integer, a piece of text, or missing (`NaN`);
  floating-point cells are outside the model (text tokens that are
  not integer literals stay text), matching the integer-valued
  columns the dashboard aggregates;
* Python `float` arithmetic is modelled by `ℚ`; a Python division
  that has no numeric result (`ZeroDivisionError` on ints, `nan`
  on numpy scalars) is modelled by `Option ℚ` being `none`;
* `pd.read_csv` is modelled by a character-level CSV tokenizer
  (comma, newline, double-quote escaping), pandas' default NA
  tokens, blank-line skipping, NaN-padding of short records,
  failure on records longer than the header, and per-column
  integer type inference;
* `df.to_csv(index=False)` is modelled by the standard minimal
  quoting (quote a field containing comma, quote, CR or LF),
  missing cells rendered empty, trailing newline.
-/

namespace CHEDS

/-- Strings of the embedding: lists of characters. -/
abbrev Str := List Char

/-- One cell of a parsed table: an integer, text, or missing (NaN). -/
inductive Cell where
  | int (n : ℤ)
  | str (s : Str)
  | missing
deriving DecidableEq, Repr

/-- A parsed table: header (column names, in order) and data rows
(cells, in source order). Mirrors the `pd.DataFrame` produced by
`pd.read_csv`. -/
structure Table where
  header : List Str
  rows : List (List Cell)
deriving DecidableEq, Repr

/-! ## Integer literals and their decimal rendering -/

/-- Decimal digit character of `d` (used for `d < 10`). -/
def digitChar (d : Nat) : Char :=
  match d with
  | 0 => '0' | 1 => '1' | 2 => '2' | 3 => '3' | 4 => '4'
  | 5 => '5' | 6 => '6' | 7 => '7' | 8 => '8' | _ => '9'

/-- Numeric value of a digit character. -/
def charVal (c : Char) : Nat :=
  match c with
  | '0' => 0 | '1' => 1 | '2' => 2 | '3' => 3 | '4' => 4
  | '5' => 5 | '6' => 6 | '7' => 7 | '8' => 8 | _ => 9

/-- Decimal digits of a natural number, most significant first. -/
def natRepr (n : Nat) : Str :=
  if n < 10 then [digitChar n]
  else natRepr (n / 10) ++ [digitChar (n % 10)]
decreasing_by
  exact Nat.div_lt_self (by omega) (by omega)

/-- Decimal rendering of an integer (with a leading minus sign for
negative values), as Python's `str` prints an `int`. -/
def intRepr (n : ℤ) : Str :=
  if n < 0 then '-' :: natRepr n.natAbs else natRepr n.natAbs

/-- Parse a digit string as a natural number (left fold). -/
def parseNatFrom (i : Nat) (s : Str) : Nat :=
  s.foldl (fun n c => 10 * n + charVal c) i

/-- Parse a digit string as a natural number. -/
def parseNat (s : Str) : Nat := parseNatFrom 0 s

/-- Parse an (already validated) integer literal. -/
def parseIntLit (s : Str) : ℤ :=
  match s with
  | [] => 0
  | c :: ds =>
    if c = '-' then -(parseNat ds : ℤ)
    else if c = '+' then (parseNat ds : ℤ)
    else (parseNat (c :: ds) : ℤ)

/-- Is `s` an integer literal (optional sign, one or more digits)?
This is the column content that `pd.read_csv` turns into an
integer column. -/
def isIntLit (s : Str) : Bool :=
  match s with
  | [] => false
  | c :: ds =>
    if c = '-' then !ds.isEmpty && ds.all Char.isDigit
    else if c = '+' then !ds.isEmpty && ds.all Char.isDigit
    else (c :: ds).all Char.isDigit

theorem digitChar_isDigit (d : Nat) : (digitChar d).isDigit = true := by
  unfold digitChar
  split <;> decide

theorem charVal_digitChar (d : Nat) (h : d < 10) : charVal (digitChar d) = d := by
  interval_cases d <;> decide

theorem natRepr_ne_nil (n : Nat) : natRepr n ≠ [] := by
  rw [natRepr]
  by_cases h : n < 10 <;> simp [h]

theorem natRepr_all_digits (n : Nat) : ∀ c ∈ natRepr n, c.isDigit = true := by
  induction n using Nat.strong_induction_on with
  | _ n ih =>
    rw [natRepr]
    by_cases h : n < 10
    · simp [h, digitChar_isDigit]
    · have hlt : n / 10 < n := Nat.div_lt_self (by omega) (by omega)
      simp only [h, if_false]
      intro c hc
      rcases List.mem_append.mp hc with h1 | h2
      · exact ih _ hlt c h1
      · simp only [List.mem_singleton] at h2
        rw [h2]; exact digitChar_isDigit _

theorem parseNatFrom_append (i : Nat) (s t : Str) :
    parseNatFrom i (s ++ t) = parseNatFrom (parseNatFrom i s) t := by
  unfold parseNatFrom
  rw [List.foldl_append]

theorem parseNat_natRepr (n : Nat) : parseNat (natRepr n) = n := by
  induction n using Nat.strong_induction_on with
  | _ n ih =>
    rw [natRepr]
    by_cases h : n < 10
    · simp only [h, if_true]
      show parseNatFrom 0 [digitChar n] = n
      unfold parseNatFrom
      simp [charVal_digitChar n h]
    · have hlt : n / 10 < n := Nat.div_lt_self (by omega) (by omega)
      simp only [h, if_false]
      show parseNatFrom 0 (natRepr (n / 10) ++ [digitChar (n % 10)]) = n
      rw [parseNatFrom_append]
      have h1 : parseNatFrom 0 (natRepr (n / 10)) = n / 10 := ih _ hlt
      rw [h1]
      unfold parseNatFrom
      simp only [List.foldl_cons, List.foldl_nil]
      rw [charVal_digitChar (n % 10) (Nat.mod_lt n (by omega))]
      omega

theorem natRepr_head_not_sign (n : Nat) (c : Char) (cs : Str)
    (hd : natRepr n = c :: cs) : c ≠ '-' ∧ c ≠ '+' := by
  have hc : c.isDigit = true := natRepr_all_digits n c (by rw [hd]; simp)
  constructor
  · intro he; rw [he] at hc; exact absurd hc (by decide)
  · intro he; rw [he] at hc; exact absurd hc (by decide)

theorem isIntLit_natRepr (n : Nat) : isIntLit (natRepr n) = true := by
  rcases hd : natRepr n with _ | ⟨c, cs⟩
  · exact absurd hd (natRepr_ne_nil n)
  · rcases natRepr_head_not_sign n c cs hd with ⟨hc0, hc1⟩
    have hall : ∀ x ∈ c :: cs, x.isDigit = true := by
      rw [← hd]; exact natRepr_all_digits n
    simp only [isIntLit, hc0, hc1, if_false]
    simp only [List.all_eq_true]
    exact hall

/-- The decimal rendering of an integer is an integer literal. -/
theorem isIntLit_intRepr (n : ℤ) : isIntLit (intRepr n) = true := by
  unfold intRepr
  by_cases h : n < 0
  · simp only [h, if_true]
    rcases hd : natRepr n.natAbs with _ | ⟨c, cs⟩
    · exact absurd hd (natRepr_ne_nil n.natAbs)
    · have hall : ∀ x ∈ c :: cs, x.isDigit = true := by
        rw [← hd]; exact natRepr_all_digits n.natAbs
      simp only [isIntLit, if_true]
      simp only [Bool.and_eq_true, List.all_eq_true, Bool.not_eq_true']
      exact ⟨by simp [List.isEmpty], hall⟩
  · simp only [h, if_false]
    exact isIntLit_natRepr n.natAbs

/-- Parsing the decimal rendering of an integer recovers it. -/
theorem parseIntLit_intRepr (n : ℤ) : parseIntLit (intRepr n) = n := by
  unfold intRepr
  by_cases h : n < 0
  · simp only [h, if_true]
    simp only [parseIntLit, if_true]
    rw [parseNat_natRepr n.natAbs, Int.ofNat_natAbs_of_nonpos (le_of_lt h)]
    exact neg_neg n
  · simp only [h, if_false]
    have hp : parseNat (natRepr n.natAbs) = n.natAbs := parseNat_natRepr n.natAbs
    rcases hd : natRepr n.natAbs with _ | ⟨c, cs⟩
    · exact absurd hd (natRepr_ne_nil n.natAbs)
    · rcases natRepr_head_not_sign n.natAbs c cs hd with ⟨hc0, hc1⟩
      rw [hd] at hp
      simp only [parseIntLit, hc0, hc1, if_false]
      rw [hp]
      omega

/-! ## CSV text model (`pd.read_csv` / `DataFrame.to_csv`) -/

/-- The default NA tokens of `pd.read_csv`: a field equal to one of
these parses as a missing value (NaN). -/
def naTokens : List Str :=
  (["", "#N/A", "#N/A N/A", "#NA", "-1.#IND", "-1.#QNAN", "-NaN", "-nan",
    "1.#IND", "1.#QNAN", "<NA>", "N/A", "NA", "NULL", "NaN", "None",
    "n/a", "nan", "null"].map String.data)

/-- Is this field an NA token? -/
def isNA (s : Str) : Bool := decide (s ∈ naTokens)

/-- Whitespace that the numeric converters of `read_csv` skip
around a field (space or tab). -/
def isWSChar (c : Char) : Bool := decide (c = ' ') || decide (c = '\t')

/-- Strip surrounding whitespace, as the numeric conversions of
`read_csv` do before parsing a field. -/
def stripWS (s : Str) : Str :=
  ((s.dropWhile isWSChar).reverse.dropWhile isWSChar).reverse

/-- Is `s` an integer literal up to surrounding whitespace (a field
`read_csv` converts to an integer)? -/
def wsIntLit (s : Str) : Bool := isIntLit (stripWS s)

/-- One or more digits. -/
def isDigits (s : Str) : Bool := !s.isEmpty && s.all Char.isDigit

/-- Unsigned mantissa of a float literal: digits with at most one
decimal point and at least one digit (plain digits also qualify). -/
def isMantissa (s : Str) : Bool :=
  let a := s.takeWhile Char.isDigit
  match s.drop a.length with
  | [] => !a.isEmpty
  | c :: rest =>
    decide (c = '.') && rest.all Char.isDigit && (!a.isEmpty || !rest.isEmpty)

/-- Exponent part of a float literal: optional sign, then digits. -/
def isExpPart : Str → Bool
  | [] => false
  | c :: cs => if c = '-' ∨ c = '+' then isDigits cs else isDigits (c :: cs)

/-- The infinity spellings the float converter accepts. -/
def infTokens : List Str :=
  (["inf", "Inf", "INF", "infinity", "Infinity", "INFINITY"].map String.data)

/-- Is `s` (up to surrounding whitespace) a float literal: optional
sign, then a mantissa with an optional `e`/`E` exponent, or an
infinity spelling? A column of such fields is converted to
`float64` by `read_csv`. -/
def isFloatTok (s : Str) : Bool :=
  let t := stripWS s
  let t1 := match t with
    | [] => ([] : Str)
    | c :: cs => if c = '-' ∨ c = '+' then cs else c :: cs
  decide (t1 ∈ infTokens) ||
    (let m := t1.takeWhile (fun c => !(decide (c = 'e') || decide (c = 'E')))
     match t1.drop m.length with
     | [] => isMantissa m
     | _ :: ex => isMantissa m && isExpPart ex)

/-- The boolean spellings the parser converts to `bool`. -/
def boolTokens : List Str :=
  (["True", "TRUE", "true", "False", "FALSE", "false"].map String.data)

/-- Is `s` a boolean literal? -/
def isBoolTok (s : Str) : Bool := decide (s ∈ boolTokens)

/-- Does `read_csv` convert this field when the whole column
consists of such fields: an integer, float or boolean literal
(whitespace-padded numbers included)? -/
def retypedTok (s : Str) : Bool := wsIntLit s || isFloatTok s || isBoolTok s

/-- Scanner state: outside quotes, inside a quoted field, or just
after a quote character seen inside a quoted field (which either
doubles to a literal quote or closes the field). -/
inductive ScanMode where
  | plain
  | quoted
  | quoteSeen
deriving DecidableEq, Repr

/-- CSV tokenizer: splits text into records of raw fields, with
comma separators, newline record ends, and double-quote escaping
(a quote opens a quoted field; a doubled quote inside is a literal
quote). `f` is the current field (reversed), `r` the current
record (reversed), `acc` the finished records (reversed). At end
of input an unfinished field/record is emitted unless both are
empty. -/
def scanCSV : ScanMode → Str → Str → List Str → List (List Str) → List (List Str)
  | ScanMode.plain, [], f, r, acc =>
    if f = [] ∧ r = [] then acc.reverse
    else ((f.reverse :: r).reverse :: acc).reverse
  | ScanMode.quoted, [], f, r, acc => ((f.reverse :: r).reverse :: acc).reverse
  | ScanMode.quoteSeen, [], f, r, acc => ((f.reverse :: r).reverse :: acc).reverse
  | ScanMode.plain, c :: cs, f, r, acc =>
    if c = ',' then scanCSV ScanMode.plain cs [] (f.reverse :: r) acc
    else if c = '\n' then
      scanCSV ScanMode.plain cs [] [] ((f.reverse :: r).reverse :: acc)
    else if c = '"' then scanCSV ScanMode.quoted cs f r acc
    else scanCSV ScanMode.plain cs (c :: f) r acc
  | ScanMode.quoted, c :: cs, f, r, acc =>
    if c = '"' then scanCSV ScanMode.quoteSeen cs f r acc
    else scanCSV ScanMode.quoted cs (c :: f) r acc
  | ScanMode.quoteSeen, c :: cs, f, r, acc =>
    if c = '"' then scanCSV ScanMode.quoted cs ('"' :: f) r acc
    else if c = ',' then scanCSV ScanMode.plain cs [] (f.reverse :: r) acc
    else if c = '\n' then
      scanCSV ScanMode.plain cs [] [] ((f.reverse :: r).reverse :: acc)
    else scanCSV ScanMode.plain cs (c :: f) r acc

/-- The raw records of a CSV text, with blank lines skipped
(`skip_blank_lines=True`: a record that is a single empty field is
dropped). -/
def csvRecords (text : Str) : List (List Str) :=
  (scanCSV ScanMode.plain text [] [] []).filter (fun rec => decide (rec ≠ [[]]))

/-- Typed cell from a raw field: NA tokens give a missing cell; in
a numeric column the field parses as an integer (surrounding
whitespace skipped); otherwise the field is kept as text
verbatim. -/
def typeCell (numeric : Bool) (tok : Str) : Cell :=
  if isNA tok then Cell.missing
  else if numeric then Cell.int (parseIntLit (stripWS tok))
  else Cell.str tok

/-- Field of record `rec` at column `j`; short records are padded
with empty fields (read as NaN), as `pd.read_csv` does. -/
def fieldAt (rec : List Str) (j : Nat) : Str := (rec.get? j).getD []

/-- Is column `j` of the data records an integer column? True iff
every field is an NA token or an integer literal up to surrounding
whitespace (the first stage of the type inference `pd.read_csv`
applies). -/
def colNumeric (rows : List (List Str)) (j : Nat) : Bool :=
  rows.all (fun rec => isNA (fieldAt rec j) || wsIntLit (fieldAt rec j))

/-- Is column `j` re-typed by inference to a non-integer numeric or
boolean dtype: every field an NA token or a convertible literal
(integer, float or boolean), but not all integers? Such a column
holds `float64`/`bool` values, which the cell model does not
represent. -/
def colRetyped (rows : List (List Str)) (j : Nat) : Bool :=
  rows.all (fun rec => isNA (fieldAt rec j) || retypedTok (fieldAt rec j)) &&
    !colNumeric rows j

/-- Model of `pd.read_csv` on raw text. `none` models inputs outside the
typed-table model: a parse failure — empty input (`EmptyDataError`) or a
record with more fields than the header (`ParserError`) — or a column
the type inference converts to `float64` or `bool` (IEEE floats and
booleans are outside the cell model, so the embedding declines such a
parse rather than assign wrong cells). Otherwise: first record is the
header, short records are padded with NaN, and integer columns are
inferred per column. -/
def readCsv (text : Str) : Option Table :=
  match csvRecords text with
  | [] => none
  | header :: rawRows =>
    if rawRows.all (fun rec => rec.length ≤ header.length) then
      if (List.range header.length).all (fun j => !colRetyped rawRows j) then
        some { header := header
               rows := rawRows.map (fun rec =>
                 (List.range header.length).map (fun j =>
                   typeCell (colNumeric rawRows j) (fieldAt rec j))) }
      else none
    else none

/-- Does this field need quoting when written by `to_csv`
(contains a comma, quote, LF or CR)? -/
def needsQuote (s : Str) : Bool :=
  s.any (fun c => c = ',' || c = '"' || c = '\n' || c = '\r')

/-- Double every quote character (the CSV escape). -/
def escapeQuotes : Str → Str
  | [] => []
  | c :: cs =>
    if c = '"' then '"' :: '"' :: escapeQuotes cs else c :: escapeQuotes cs

/-- Render a raw field as `to_csv` writes it: quoted iff it
contains a special character. -/
def renderField (s : Str) : Str :=
  if needsQuote s then '"' :: escapeQuotes s ++ ['"'] else s

/-- The raw token a cell is written as: integers in decimal,
missing as the empty field, text as itself. -/
def cellToken : Cell → Str
  | Cell.int n => intRepr n
  | Cell.str s => s
  | Cell.missing => []

/-- Render one cell. -/
def renderCell (c : Cell) : Str := renderField (cellToken c)

/-- Render one line (no terminator): fields joined by commas. -/
def renderLine : List Str → Str
  | [] => []
  | t :: ts => t ++ (if ts = [] then [] else ',' :: renderLine ts)

/-- Render a table as `df.to_csv(index=False)` does: header line,
then one line per row, each line terminated by a newline. -/
def writeCsv (t : Table) : Str :=
  (renderLine (t.header.map renderField) ++ ['\n']) ++
    (t.rows.map (fun row => renderLine (row.map renderCell) ++ ['\n'])).flatten

/-! ## Filenames and product ids -/

/-- Model of `pathlib.Path(name).stem`: the name with its final suffix
removed. Following `pathlib`, the suffix is the part from the last
dot, counted only when that dot is neither the first nor the last
character. -/
def stemOf (s : Str) : Str :=
  let pre := s.reverse.takeWhile (fun c => decide (c ≠ '.'))
  if pre.length = s.length then s
  else if s.length - 1 - pre.length = 0 ∨ pre.length = 0 then s
  else s.take (s.length - 1 - pre.length)

/-- Python `name.split(sep)[0]`: the prefix before the first
occurrence of `sep` (the whole string when `sep` is absent). -/
def splitFirst (sep : Char) (s : Str) : Str :=
  s.takeWhile (fun c => decide (c ≠ sep))

/-- Product id in the directory loading paths (startup auto-load
and sidebar reload): `file_path.stem.split('_')[0]`. -/
def productIdFromPath (name : Str) : Str := splitFirst '_' (stemOf name)

/-- Product id in the upload path: `file.name.split('_')[0]` — the
raw filename, extension included, is split. -/
def productIdFromUpload (name : Str) : Str := splitFirst '_' name

/-! ## Datasets, registry and session state -/

/-- One registry entry, as built at the three loading sites:
`{'data': df, 'filename': ..., 'rows': len(df), 'columns':
len(df.columns)}`. -/
structure Dataset where
  data : Table
  filename : Str
  rows : Nat
  columns : Nat
deriving DecidableEq, Repr

/-- Build the registry entry for a parsed table. -/
def mkDataset (t : Table) (name : Str) : Dataset :=
  { data := t, filename := name, rows := t.rows.length,
    columns := t.header.length }

/-- The session registry `st.session_state.datasets`: a Python
dict product id → dataset, i.e. an insertion-ordered association
list with key overwrite. -/
abbrev Registry := List (Str × Dataset)

/-- Python dict assignment `d[k] = v`: overwrite in place, or
append a new key at the end. -/
def dictInsert (k : Str) (v : Dataset) : Registry → Registry
  | [] => [(k, v)]
  | (k', v') :: rest =>
    if k' = k then (k, v) :: rest else (k', v') :: dictInsert k v rest

/-- Python dict lookup `d.get(k)`. -/
def dictGet (k : Str) : Registry → Option Dataset
  | [] => none
  | (k', v') :: rest => if k' = k then some v' else dictGet k rest

/-- A source file offered to a loader: its filename and its raw
bytes (as text). -/
structure SrcFile where
  name : Str
  content : Str
deriving DecidableEq, Repr

/-- The startup auto-load loop (module top level, the only loading
site with a per-file `try/except`): each file is parsed; a parse
failure skips just that file and the loop continues. -/
def startupScan (files : List SrcFile) : Registry :=
  files.foldl (fun acc f =>
    match readCsv f.content with
    | some t => dictInsert (productIdFromPath f.name) (mkDataset t f.name) acc
    | none => acc) []

/-- The loop of `auto_load_csv_files` over a local dict: the
per-file loop has no exception handling, so the first parse
failure propagates (`none`) and nothing of the batch survives. -/
def autoLoadGo : List SrcFile → Registry → Option Registry
  | [], r => some r
  | f :: fs, r =>
    match readCsv f.content with
    | none => none
    | some t =>
      autoLoadGo fs (dictInsert (productIdFromPath f.name) (mkDataset t f.name) r)

/-- The body of `auto_load_csv_files` (sidebar reload), starting
from an empty local dict. -/
def autoLoadBatch (files : List SrcFile) : Option Registry :=
  autoLoadGo files []

/-- The upload loop in `main`: mutates the session dict in place,
one file at a time, with no exception handling; a parse failure
aborts the loop, keeping the entries already inserted. Returns the
resulting registry and whether the loop ran to completion. -/
def uploadGo : List SrcFile → Registry → Registry × Bool
  | [], r => (r, true)
  | f :: fs, r =>
    match readCsv f.content with
    | none => (r, false)
    | some t =>
      uploadGo fs (dictInsert (productIdFromUpload f.name) (mkDataset t f.name) r)

/-- The session state: the `data_loaded` flag and the datasets
dict. -/
structure SessionState where
  data_loaded : Bool
  datasets : Registry
deriving DecidableEq, Repr

/-- Session state at the start of a session. -/
def initialState : SessionState := { data_loaded := false, datasets := [] }

/-- The startup auto-load (lines 172–202): runs when matching
files exist and no data is loaded; skips unreadable files; assigns
the batch and sets the flag only when the batch is non-empty. The
file list is empty when the directory is missing or holds no CSV
files. -/
def startupEvent (files : List SrcFile) (st : SessionState) : SessionState :=
  if files ≠ [] ∧ st.data_loaded = false then
    let r := startupScan files
    if r ≠ [] then { data_loaded := true, datasets := r } else st
  else st

/-- The sidebar "Reload All CSV Files" action: `auto_load_csv_files`
returns `False` without touching the session when the directory is
missing or empty; on success it replaces the whole registry; on a
parse failure the exception propagates before any assignment, so
the session is unchanged. -/
def reloadEvent (files : List SrcFile) (st : SessionState) : SessionState :=
  if files = [] then st
  else
    match autoLoadBatch files with
    | some r => { data_loaded := true, datasets := r }
    | none => st

/-- The upload action: merges the uploaded files into the dict in
place; `data_loaded = True` is only reached when every file
parsed. -/
def uploadEvent (files : List SrcFile) (st : SessionState) : SessionState :=
  if files = [] then st
  else
    let (r, ok) := uploadGo files st.datasets
    { data_loaded := if ok then true else st.data_loaded, datasets := r }

/-- User actions that touch the registry. -/
inductive Event where
  | startup (files : List SrcFile)
  | reload (files : List SrcFile)
  | upload (files : List SrcFile)

/-- One step of the session. -/
def stepEvent : Event → SessionState → SessionState
  | Event.startup files, st => startupEvent files st
  | Event.reload files, st => reloadEvent files st
  | Event.upload files, st => uploadEvent files st

/-- Session states reachable from the start of a session. -/
inductive Reachable : SessionState → Prop where
  | init : Reachable initialState
  | step (e : Event) {st : SessionState} :
      Reachable st → Reachable (stepEvent e st)

/-- The spec's `is_loaded()`: the `data_loaded` flag. -/
def isLoaded (st : SessionState) : Bool := st.data_loaded

/-! ## Catalog -/

/-- The table `PRODUCT_CATEGORIES`: the static domain → product-id mapping
(41 ids across 7 domains). -/
def PRODUCT_CATEGORIES : List (Str × List Str) :=
  [("Learning and Teaching".data,
    (["CHEDS-LT-01", "CHEDS-LT-02", "CHEDS-LT-03", "CHEDS-LT-04", "CHEDS-LT-05",
      "CHEDS-LT-06", "CHEDS-LT-07", "CHEDS-LT-08", "CHEDS-LT-09", "CHEDS-LT-10",
      "CHEDS-LT-11", "CHEDS-LT-12", "CHEDS-LT-13", "CHEDS-LT-14", "CHEDS-LT-15",
      "CHEDS-LT-16", "CHEDS-LT-17", "CHEDS-LT-18", "CHEDS-LT-19",
      "CHEDS-LT-20"].map String.data)),
   ("Human Resource Management".data,
    (["CHEDS-HR-21", "CHEDS-HR-22", "CHEDS-HR-23", "CHEDS-HR-24"].map String.data)),
   ("Financial Management".data, (["CHEDS-FIN-25"].map String.data)),
   ("Research".data,
    (["CHEDS-RES-26", "CHEDS-RES-27", "CHEDS-RES-28", "CHEDS-RES-29",
      "CHEDS-RES-30", "CHEDS-RES-31", "CHEDS-RES-32"].map String.data)),
   ("Facilities & Estate Management".data,
    (["CHEDS-FAC-33", "CHEDS-FAC-34"].map String.data)),
   ("Supporting Services".data,
    (["CHEDS-SUP-35", "CHEDS-SUP-36", "CHEDS-SUP-40", "CHEDS-SUP-41"].map String.data)),
   ("Advancement Management".data,
    (["CHEDS-ADV-37", "CHEDS-ADV-38", "CHEDS-ADV-39"].map String.data))]

/-! ## Overview metrics (`display_overview`, lines 311–314) -/

/-- The four overview metrics. -/
structure OverviewMetrics where
  total_products : Nat
  total_records : Nat
  total_columns : Nat
  avg_records_per_product : Nat
deriving DecidableEq, Repr

/-- Lines 311–314: `total_products = len(datasets)`, `total_rows = sum(ds['rows'])`,
`total_columns = sum(ds['columns'])`, and
`avg = total_rows // total_products if total_products > 0 else 0`. -/
def overviewMetrics (r : Registry) : OverviewMetrics :=
  let total_products := r.length
  let total_rows := (r.map (fun e => e.2.rows)).sum
  let total_columns := (r.map (fun e => e.2.columns)).sum
  { total_products := total_products
    total_records := total_rows
    total_columns := total_columns
    avg_records_per_product :=
      if total_products > 0 then total_rows / total_products else 0 }

/-! ## Domain summaries (`display_overview`, lines 332–344) -/

/-- Line 334: `loaded_products = [p for p in products if p in datasets]`. -/
def loadedProducts (r : Registry) (products : List Str) : List Str :=
  products.filter (fun p => (dictGet p r).isSome)

/-- Line 335: `total_records = sum(datasets[p]['rows'] for p in loaded_products)`. -/
def domainRecords (r : Registry) (products : List Str) : Nat :=
  ((loadedProducts r products).map
    (fun p => ((dictGet p r).map Dataset.rows).getD 0)).sum

/-- Line 336: `avg_cols = sum(columns)/len(loaded) if loaded_products else 0`
(float division, modelled in `ℚ`). -/
def domainAvgCols (r : Registry) (products : List Str) : ℚ :=
  let loaded := loadedProducts r products
  if loaded ≠ [] then
    (((loaded.map (fun p => ((dictGet p r).map Dataset.columns).getD 0)).sum : ℚ) /
      (loaded.length : ℚ))
  else 0

/-- Line 343: `Coverage % = len(loaded)/len(products)*100 if products else 0`. -/
def coveragePct (r : Registry) (products : List Str) : ℚ :=
  if products ≠ [] then
    ((loadedProducts r products).length : ℚ) / (products.length : ℚ) * 100
  else 0

/-! ## Percentages -/

/-- A Python float division `a / b`: no numeric result when the
divisor is zero (`ZeroDivisionError` for plain ints, `nan` for
numpy scalars) — modelled as `none`. -/
def pyDiv (a b : ℚ) : Option ℚ := if b = 0 then none else some (a / b)

/-- The Learning & Teaching conversion metrics (lines 506–513):
every division is guarded with `if denominator > 0 else 0`. -/
def acceptanceRate (applicants enrolled : Nat) : ℚ :=
  if applicants > 0 then (enrolled : ℚ) / (applicants : ℚ) * 100 else 0

/-- The `graduation_rate` metric (line 509), guarded alike. -/
def graduationRate (enrolled graduates : Nat) : ℚ :=
  if enrolled > 0 then (graduates : ℚ) / (enrolled : ℚ) * 100 else 0

/-- The `students_per_course` metric (line 512), guarded alike. -/
def studentsPerCourse (courses enrolled : Nat) : ℚ :=
  if courses > 0 then (enrolled : ℚ) / (courses : ℚ) else 0

/-- Number of rows of `t` whose cell in column `col` equals `v`
(the embedding of `(df[col] == value).sum()`); `0` when the column
is absent. -/
def findColIdx (c : Str) : List Str → Option Nat
  | [] => none
  | h :: hs => if h = c then some 0 else (findColIdx c hs).map (· + 1)

/-- Cell of a row in a named column (missing when absent). -/
def cellIn (hdr : List Str) (c : Str) (row : List Cell) : Cell :=
  match findColIdx c hdr with
  | some j => (row.get? j).getD Cell.missing
  | none => Cell.missing

/-- Counting rows: `(df[col] == v).sum() if col in df.columns else 0`. -/
def countEq (t : Table) (col : Str) (v : Cell) : Nat :=
  if (findColIdx col t.header).isSome then
    (t.rows.filter (fun row => decide (cellIn t.header col row = v))).length
  else 0

/-- The Workforce Overview shares (lines 840–847): male, female,
UAE-national and expatriate counts each divided by
`total_employees` with no zero guard. The result is `none` — no
numeric percentage — whenever the CHEDS-HR-21 table has no rows. -/
def workforceShares (t : Table) : Option (ℚ × ℚ × ℚ × ℚ) :=
  let total : ℚ := (t.rows.length : ℚ)
  let male : ℚ := (countEq t "Emp_Gender".data (Cell.str "M".data) : ℚ)
  let female : ℚ := (countEq t "Emp_Gender".data (Cell.str "F".data) : ℚ)
  let uae : ℚ := (countEq t "Emp_Nationality".data (Cell.str "AE".data) : ℚ)
  match pyDiv male total, pyDiv female total, pyDiv uae total,
      pyDiv (total - uae) total with
  | some a, some b, some c, some d => some (a * 100, b * 100, c * 100, d * 100)
  | _, _, _, _ => none

/-! ## Ordering of cells (pandas group-key order) -/

/-- Lexicographic strict order on text. -/
def strLtB : Str → Str → Bool
  | [], [] => false
  | [], _ :: _ => true
  | _ :: _, [] => false
  | a :: as, b :: bs =>
    if a < b then true else if b < a then false else strLtB as bs

/-- Strict order on cells used for group keys (text keys compare
lexicographically, as pandas sorts object group keys; integer keys
by value; in a parsed table a group column is homogeneous, the
cross-constructor cases are an arbitrary disambiguation). -/
def cellLtB : Cell → Cell → Bool
  | Cell.missing, Cell.missing => false
  | Cell.missing, _ => true
  | Cell.int _, Cell.missing => false
  | Cell.int m, Cell.int n => decide (m < n)
  | Cell.int _, Cell.str _ => true
  | Cell.str _, Cell.missing => false
  | Cell.str _, Cell.int _ => false
  | Cell.str a, Cell.str b => strLtB a b

/-- Insert into an ascending list (used to sort group keys). -/
def insAsc (x : Cell) : List Cell → List Cell
  | [] => [x]
  | y :: ys => if cellLtB x y then x :: y :: ys else y :: insAsc x ys

/-- Insertion sort, ascending by `cellLtB`. -/
def sortAsc (l : List Cell) : List Cell := l.foldr insAsc []

/-- First-occurrence deduplication. -/
def dedupF : List Cell → List Cell
  | [] => []
  | x :: xs => x :: (dedupF xs).filter (fun y => decide (y ≠ x))

/-- Stable descending insertion by a measure `f`: an element goes
in front of the first element whose measure is not larger, so
equal measures keep their input order. -/
def insDesc [LinearOrder β] (f : α → β) (x : α) : List α → List α
  | [] => [x]
  | y :: ys => if f y ≤ f x then x :: y :: ys else y :: insDesc f x ys

/-- Stable descending sort by a measure (the behaviour of a stable
`sort_values(ascending=False)`). -/
def sortDesc [LinearOrder β] (f : α → β) (l : List α) : List α :=
  l.foldr (insDesc f) []

/-! ## Grouped sums (`display_learning_teaching`, lines 525–527) -/

/-- The value a cell of an integer column contributes to its sum:
integers count, missing cells are skipped (pandas sums skip
NaN). -/
def cellNum : Cell → Option ℤ
  | Cell.int n => some n
  | _ => none

/-- The text a cell of an object (text) column contributes to its
sum: text counts, missing cells are skipped (object-column sums
also skip NaN). -/
def cellText : Cell → Option Str
  | Cell.str s => some s
  | _ => none

/-- May this cell sit in an integer column? -/
def intCellOk : Cell → Bool
  | Cell.int _ => true
  | Cell.missing => true
  | Cell.str _ => false

/-- May this cell sit in an object (text) column? -/
def textCellOk : Cell → Bool
  | Cell.str _ => true
  | Cell.missing => true
  | Cell.int _ => false

/-- The values of a named column, in row order. -/
def colValues (t : Table) (col : Str) : List Cell :=
  t.rows.map (cellIn t.header col)

/-- The group keys of `df.groupby(gcol)`: the distinct non-missing
values of the group column, in ascending order (pandas
`groupby(sort=True)`, its default; NaN keys are dropped). -/
def groupKeys (t : Table) (gcol : Str) : List Cell :=
  sortAsc (dedupF ((colValues t gcol).filter
    (fun c => decide (c ≠ Cell.missing))))

/-- The value-column cells of one group, in row order. -/
def groupCells (t : Table) (gcol vcol : Str) (k : Cell) : List Cell :=
  (t.rows.filter (fun row => decide (cellIn t.header gcol row = k))).map
    (fun row => cellIn t.header vcol row)

/-! ## Value counts (`df[col].value_counts()`) -/

/-- Number of occurrences of a value in a list of cells. -/
def countVal (v : Cell) (l : List Cell) : Nat :=
  (l.filter (fun x => decide (x = v))).length

/-- Model of `Series.value_counts()` on the cells of a column: distinct
non-missing values (pandas tracks first-seen order of the keys),
each with its count, sorted by count descending with a stable
sort, so ties keep first-occurrence order; NaN is dropped. -/
def valueCounts (l : List Cell) : List (Cell × Nat) :=
  sortDesc (fun p => p.2)
    ((dedupF (l.filter (fun c => decide (c ≠ Cell.missing)))).map
      (fun v => (v, countVal v l)))

/-- Model of `value_counts().head(n)`: the top-`n` truncation. -/
def valueCountsTop (n : Nat) (l : List Cell) : List (Cell × Nat) :=
  (valueCounts l).take n

/-- Index of the first occurrence of a value in a list of cells
(the list's length when absent). -/
def firstIdx (v : Cell) : List Cell → Nat
  | [] => 0
  | x :: xs => if x = v then 0 else firstIdx v xs + 1

/-! ## Data explorer (filter, column selection, export) -/

/-- Filtering: `filtered_df[filtered_df[col].isin(vals)]` (line 2871). -/
def filterIsin (t : Table) (col : Str) (vals : List Cell) : Table :=
  { header := t.header
    rows := t.rows.filter (fun row => decide (cellIn t.header col row ∈ vals)) }

/-- Column selection: `filtered_df[selected_columns]` (line 2885): keep the chosen
columns, in the chosen order. -/
def selectColumns (t : Table) (cols : List Str) : Table :=
  { header := cols
    rows := t.rows.map (fun row => cols.map (fun c => cellIn t.header c row)) }

/-! ## Sample inputs used by concrete scenarios -/

/-- A well-formed 10-row, 3-column CHEDS-LT-01 file (the spec's
overview scenario). -/
def sampleLT01 : SrcFile :=
  { name := "CHEDS-LT-01_x.csv".data
    content := "a,b,c\n1,2,3\n1,2,3\n1,2,3\n1,2,3\n1,2,3\n1,2,3\n1,2,3\n1,2,3\n1,2,3\n1,2,3\n".data }

/-- A well-formed 5-row, 4-column CHEDS-HR-21 file (the spec's
overview scenario). -/
def sampleHR21 : SrcFile :=
  { name := "CHEDS-HR-21_y.csv".data
    content := "a,b,c,d\n1,2,3,4\n1,2,3,4\n1,2,3,4\n1,2,3,4\n1,2,3,4\n".data }

/-- A malformed file: its data row has more fields than the header
(`pandas.errors.ParserError`). -/
def sampleBad : SrcFile :=
  { name := "CHEDS-LT-02_b.csv".data
    content := "A,B\n1,2,3\n".data }

/-! ## Claim theorems -/

/-- C2: for every registry, the overview metrics are the entry
count, the sums of the cached row and column counts, and the floor
quotient of records by products (0 when the registry is empty);
loading the spec's two scenario files yields
`{total_products := 2, total_records := 15, total_columns := 7,
avg_records_per_product := 7}`. -/
theorem C2_overview_metrics :
    (∀ r : Registry,
      (overviewMetrics r).total_products = r.length ∧
      (overviewMetrics r).total_records = (r.map (fun e => e.2.rows)).sum ∧
      (overviewMetrics r).total_columns = (r.map (fun e => e.2.columns)).sum ∧
      (0 < r.length → (overviewMetrics r).avg_records_per_product =
        (r.map (fun e => e.2.rows)).sum / r.length) ∧
      (r.length = 0 → (overviewMetrics r).avg_records_per_product = 0)) ∧
    overviewMetrics (startupScan [sampleLT01, sampleHR21]) =
      { total_products := 2, total_records := 15, total_columns := 7,
        avg_records_per_product := 7 } := by
  constructor
  · intro r
    refine ⟨rfl, rfl, rfl, ?_, ?_⟩
    · intro h
      simp [overviewMetrics, h]
    · intro h
      simp [overviewMetrics, h]
  · decide

/-- C2 witness: the conditional conjuncts of `C2_overview_metrics`
discharged at the scenario registry. -/
theorem C2_overview_metrics_witness :
    (overviewMetrics (startupScan [sampleLT01, sampleHR21])).avg_records_per_product =
      ((startupScan [sampleLT01, sampleHR21]).map (fun e => e.2.rows)).sum /
        (startupScan [sampleLT01, sampleHR21]).length :=
  (C2_overview_metrics.1 (startupScan [sampleLT01, sampleHR21])).2.2.2.1 (by decide)

theorem length_loadedProducts_le (r : Registry) (products : List Str) :
    (loadedProducts r products).length ≤ products.length :=
  List.length_filter_le _ _

theorem coveragePct_bounds (r : Registry) (products : List Str) :
    0 ≤ coveragePct r products ∧ coveragePct r products ≤ 100 := by
  unfold coveragePct
  by_cases h : products ≠ []
  · rw [if_pos h]
    have hlen : 0 < products.length := List.length_pos.mpr h
    have hlenq : (0 : ℚ) < (products.length : ℚ) := by exact_mod_cast hlen
    have hle : ((loadedProducts r products).length : ℚ) ≤ (products.length : ℚ) := by
      exact_mod_cast length_loadedProducts_le r products
    constructor
    · positivity
    · have hdiv : ((loadedProducts r products).length : ℚ) / (products.length : ℚ) ≤ 1 :=
        (div_le_one hlenq).mpr hle
      calc ((loadedProducts r products).length : ℚ) / (products.length : ℚ) * 100
          ≤ 1 * 100 := by nlinarith
        _ = 100 := by norm_num
  · simp only [h, if_false]
    norm_num

/-- C3: for every catalog domain and every registry contents, the
domain summary satisfies `loaded_count ≤ total_count`; the
coverage percentage lies in `[0, 100]`, is `0` for an empty
product list and `100` when everything is loaded; and the average
column count is the mean over the loaded products, `0` when none
is loaded. -/
theorem C3_domain_summary :
    ∀ d ∈ PRODUCT_CATEGORIES, ∀ r : Registry,
      (loadedProducts r d.2).length ≤ d.2.length ∧
      0 ≤ coveragePct r d.2 ∧ coveragePct r d.2 ≤ 100 ∧
      (d.2 = [] → coveragePct r d.2 = 0) ∧
      ((loadedProducts r d.2).length = d.2.length ∧ d.2 ≠ [] →
        coveragePct r d.2 = 100) ∧
      (loadedProducts r d.2 ≠ [] → domainAvgCols r d.2 =
        ((loadedProducts r d.2).map
          (fun p => ((dictGet p r).map Dataset.columns).getD 0)).sum /
          ((loadedProducts r d.2).length : ℚ)) ∧
      (loadedProducts r d.2 = [] → domainAvgCols r d.2 = 0) := by
  intro d _ r
  refine ⟨length_loadedProducts_le r d.2, (coveragePct_bounds r d.2).1,
    (coveragePct_bounds r d.2).2, ?_, ?_, ?_, ?_⟩
  · intro h
    simp [coveragePct, h]
  · rintro ⟨hfull, hne⟩
    unfold coveragePct
    rw [if_pos hne]
    have hlen : 0 < d.2.length := List.length_pos.mpr hne
    have hlenq : ((d.2.length : ℚ)) ≠ 0 := by
      exact_mod_cast Nat.pos_iff_ne_zero.mp hlen
    rw [hfull, div_self hlenq]
    norm_num
  · intro h
    simp [domainAvgCols, h]
  · intro h
    simp [domainAvgCols, h]

/-- C3 witness: `C3_domain_summary` discharged at the Human
Resource Management domain and the scenario registry. -/
theorem C3_domain_summary_witness :
    0 ≤ coveragePct (startupScan [sampleLT01, sampleHR21])
        ("Human Resource Management".data,
          (["CHEDS-HR-21", "CHEDS-HR-22", "CHEDS-HR-23",
            "CHEDS-HR-24"].map String.data)).2 ∧
    coveragePct (startupScan [sampleLT01, sampleHR21])
        ("Human Resource Management".data,
          (["CHEDS-HR-21", "CHEDS-HR-22", "CHEDS-HR-23",
            "CHEDS-HR-24"].map String.data)).2 ≤ 100 := by
  have h := C3_domain_summary
    ("Human Resource Management".data,
      (["CHEDS-HR-21", "CHEDS-HR-22", "CHEDS-HR-23",
        "CHEDS-HR-24"].map String.data))
    (by decide) (startupScan [sampleLT01, sampleHR21])
  exact ⟨h.2.1, h.2.2.1⟩

/-- The CHEDS-HR-21 table obtained from a header-only CSV file:
it has the `Emp_Gender` column and zero rows. -/
def hrEmptyTable : Table := { header := ["Emp_Gender".data], rows := [] }

/-- C4: the Workforce Overview shares (lines 840–847) divide by
`total_employees` with no zero guard: on the zero-row CHEDS-HR-21
table parsed from a header-only CSV they produce no numeric
percentage at all (`none`: `ZeroDivisionError`/NaN), where the
contract `percentage(part, 0) = 0` demands `0`. The guarded
Learning & Teaching conversion rates (lines 506–513) do follow the
contract. -/
theorem C4_percentage_contract :
    readCsv "Emp_Gender\n".data = some hrEmptyTable ∧
    hrEmptyTable.rows.length = 0 ∧
    workforceShares hrEmptyTable = none ∧
    acceptanceRate 0 0 = 0 ∧ acceptanceRate 0 5 = 0 ∧
    acceptanceRate 10 5 = 50 ∧
    graduationRate 0 5 = 0 ∧ studentsPerCourse 0 5 = 0 := by
  refine ⟨by decide, rfl, rfl, ?_, ?_, ?_, ?_, ?_⟩ <;>
    norm_num [acceptanceRate, graduationRate, studentsPerCourse]

theorem takeWhile_append_all {p : Char → Bool} (l m : Str)
    (h : ∀ c ∈ l, p c = true) :
    (l ++ m).takeWhile p = l ++ m.takeWhile p := by
  induction l with
  | nil => simp
  | cons a l ih =>
    rw [List.cons_append, List.takeWhile_cons, if_pos (h a (by simp))]
    rw [ih (fun c hc => h c (by simp [hc]))]
    rfl

theorem splitFirst_append_of_mem (sep : Char) (l m : Str) (h : sep ∈ l) :
    splitFirst sep (l ++ m) = splitFirst sep l := by
  induction l with
  | nil => simp at h
  | cons a l ih =>
    by_cases ha : a = sep
    · unfold splitFirst
      rw [List.cons_append, List.takeWhile_cons, List.takeWhile_cons]
      simp [ha]
    · have h' : sep ∈ l := by
        rcases List.mem_cons.mp h with h1 | h1
        · exact absurd h1.symm ha
        · exact h1
      unfold splitFirst
      rw [List.cons_append, List.takeWhile_cons, List.takeWhile_cons]
      have hd : decide (a ≠ sep) = true := by simp [ha]
      rw [hd]
      simp only [if_true]
      have := ih h'
      unfold splitFirst at this
      rw [this]

theorem splitFirst_append_of_not_mem (sep : Char) (l m : Str) (h : sep ∉ l) :
    splitFirst sep (l ++ m) = l ++ splitFirst sep m := by
  unfold splitFirst
  exact takeWhile_append_all l m (fun c hc => by
    simp only [decide_eq_true_eq]
    intro he
    exact h (he ▸ hc))

/-- For a nonempty stem, `Path(stem + ".csv").stem` recovers the
stem (the suffix is taken at the last dot). -/
theorem stemOf_append_csv (stem : Str) (hne : stem ≠ []) :
    stemOf (stem ++ ".csv".data) = stem := by
  have hrev : (stem ++ ".csv".data).reverse =
      'v' :: 's' :: 'c' :: '.' :: stem.reverse := by
    rw [List.reverse_append]
    rfl
  have hpre : (stem ++ ".csv".data).reverse.takeWhile
      (fun c => decide (c ≠ '.')) = ['v', 's', 'c'] := by
    rw [hrev]
    rw [List.takeWhile_cons, List.takeWhile_cons, List.takeWhile_cons,
      List.takeWhile_cons]
    simp
  have hlen : (stem ++ ".csv".data).length = stem.length + 4 := by
    rw [List.length_append]
    rfl
  have hsl : 0 < stem.length := List.length_pos.mpr hne
  unfold stemOf
  rw [hpre, hlen]
  have h1 : ¬(3 = stem.length + 4) := by omega
  have h2 : ¬(stem.length + 4 - 1 - 3 = 0 ∨ (3 : Nat) = 0) := by
    omega
  simp only [List.length_cons, List.length_nil]
  rw [if_neg h1, if_neg h2]
  have h3 : stem.length + 4 - 1 - 3 = stem.length := by omega
  rw [h3, List.take_left]

/-- C5 counterexample: uploading `CHEDS-LT-01.csv` (an underscore-
free filename) stores the whole filename, extension included, as
the registry key — not the token before the first underscore of
the stem, which the directory loading path stores. -/
theorem C5_counterexample :
    productIdFromUpload "CHEDS-LT-01.csv".data = "CHEDS-LT-01.csv".data ∧
    splitFirst '_' (stemOf "CHEDS-LT-01.csv".data) = "CHEDS-LT-01".data ∧
    productIdFromUpload "CHEDS-LT-01.csv".data ≠
      splitFirst '_' (stemOf "CHEDS-LT-01.csv".data) ∧
    productIdFromPath "CHEDS-LT-01.csv".data = "CHEDS-LT-01".data := by
  refine ⟨by decide, by decide, by decide, by decide⟩

/-- C5 amended: for a `.csv` filename with nonempty stem, the
directory paths key on the first-underscore token of the stem; the
upload path splits the raw filename, which coincides with the stem
rule when the stem contains an underscore, but keeps the whole
filename (extension included) when it does not. -/
theorem C5_product_id (stem : Str) (hne : stem ≠ []) :
    productIdFromPath (stem ++ ".csv".data) = splitFirst '_' stem ∧
    ('_' ∈ stem →
      productIdFromUpload (stem ++ ".csv".data) = splitFirst '_' stem) ∧
    ('_' ∉ stem →
      productIdFromUpload (stem ++ ".csv".data) = stem ++ ".csv".data) := by
  refine ⟨?_, ?_, ?_⟩
  · unfold productIdFromPath
    rw [stemOf_append_csv stem hne]
  · intro h
    unfold productIdFromUpload
    exact splitFirst_append_of_mem '_' stem ".csv".data h
  · intro h
    unfold productIdFromUpload
    rw [splitFirst_append_of_not_mem '_' stem ".csv".data h]
    rfl

/-- C5 witness: `C5_product_id` discharged at the stems
`CHEDS-LT-01_applicants` and `CHEDS-LT-01`. -/
theorem C5_product_id_witness :
    productIdFromPath ("CHEDS-LT-01_applicants".data ++ ".csv".data) =
      splitFirst '_' "CHEDS-LT-01_applicants".data ∧
    productIdFromUpload ("CHEDS-LT-01_applicants".data ++ ".csv".data) =
      splitFirst '_' "CHEDS-LT-01_applicants".data ∧
    productIdFromUpload ("CHEDS-LT-01".data ++ ".csv".data) =
      "CHEDS-LT-01".data ++ ".csv".data :=
  ⟨(C5_product_id "CHEDS-LT-01_applicants".data (by decide)).1,
   (C5_product_id "CHEDS-LT-01_applicants".data (by decide)).2.1 (by decide),
   (C5_product_id "CHEDS-LT-01".data (by decide)).2.2 (by decide)⟩

theorem dictInsert_ne_nil (k : Str) (v : Dataset) (r : Registry) :
    dictInsert k v r ≠ [] := by
  cases r with
  | nil => simp [dictInsert]
  | cons e rest =>
    unfold dictInsert
    by_cases h : e.1 = k <;> simp [h]

theorem length_le_dictInsert (k : Str) (v : Dataset) (r : Registry) :
    r.length ≤ (dictInsert k v r).length := by
  induction r with
  | nil => simp [dictInsert]
  | cons e rest ih =>
    unfold dictInsert
    by_cases h : e.1 = k
    · simp [h]
    · simpa [h] using Nat.succ_le_succ ih

theorem autoLoadGo_some_len (files : List SrcFile) (r r' : Registry)
    (h : autoLoadGo files r = some r') : r.length ≤ r'.length := by
  induction files generalizing r with
  | nil =>
    simp only [autoLoadGo, Option.some_inj] at h
    rw [h]
  | cons f fs ih =>
    simp only [autoLoadGo] at h
    rcases hr : readCsv f.content with _ | t
    · rw [hr] at h; exact absurd h (by simp)
    · rw [hr] at h
      have := ih _ h
      exact le_trans (length_le_dictInsert _ _ r) this

theorem autoLoadBatch_ne_nil (files : List SrcFile) (r' : Registry)
    (hne : files ≠ []) (h : autoLoadBatch files = some r') : r' ≠ [] := by
  rcases files with _ | ⟨f, fs⟩
  · exact absurd rfl hne
  · unfold autoLoadBatch autoLoadGo at h
    rcases hr : readCsv f.content with _ | t
    · rw [hr] at h; exact absurd h (by simp)
    · rw [hr] at h
      have hlen := autoLoadGo_some_len fs _ r' h
      have h1 : 1 ≤ (dictInsert (productIdFromPath f.name)
          (mkDataset t f.name) []).length := by
        simp [dictInsert]
      intro hnil
      rw [hnil] at hlen
      simp only [List.length_nil] at hlen
      omega

theorem uploadGo_fst_len (files : List SrcFile) (r : Registry) :
    r.length ≤ (uploadGo files r).1.length := by
  induction files generalizing r with
  | nil => simp [uploadGo]
  | cons f fs ih =>
    unfold uploadGo
    rcases hr : readCsv f.content with _ | t
    · simp
    · exact le_trans (length_le_dictInsert _ _ r) (ih _)

theorem uploadGo_complete_ne_nil (files : List SrcFile) (r : Registry)
    (hne : files ≠ []) (h : (uploadGo files r).2 = true) :
    (uploadGo files r).1 ≠ [] := by
  rcases files with _ | ⟨f, fs⟩
  · exact absurd rfl hne
  · rcases hr : readCsv f.content with _ | t
    · simp only [uploadGo, hr] at h
      exact absurd h (by simp)
    · simp only [uploadGo, hr]
      have hlen := uploadGo_fst_len fs
        (dictInsert (productIdFromUpload f.name) (mkDataset t f.name) r)
      have h1 : 1 ≤ (dictInsert (productIdFromUpload f.name)
          (mkDataset t f.name) r).length := by
        have := dictInsert_ne_nil (productIdFromUpload f.name)
          (mkDataset t f.name) r
        exact Nat.one_le_iff_ne_zero.mpr (by
          intro h0
          exact this (List.length_eq_zero.mp h0))
      intro hnil
      rw [hnil] at hlen
      simp only [List.length_nil] at hlen
      omega

/-- C6 amended: at every reachable session state, `is_loaded()`
implies the registry is non-empty; and a full reload that finds no
matching files (missing directory or empty file set) is a no-op —
it leaves the registry and the flag untouched, rather than
emptying the registry. -/
theorem C6_loaded_flag :
    (∀ st : SessionState, Reachable st →
      isLoaded st = true → st.datasets ≠ []) ∧
    (∀ st : SessionState, reloadEvent [] st = st) := by
  constructor
  · intro st hreach
    induction hreach with
    | init => intro h; exact absurd h (by decide)
    | step e hst ih =>
      rename_i st'
      cases e with
      | startup files =>
        show isLoaded (startupEvent files st') = true →
          (startupEvent files st').datasets ≠ []
        unfold startupEvent
        by_cases hc : files ≠ [] ∧ st'.data_loaded = false
        · rw [if_pos hc]
          by_cases hr : startupScan files ≠ []
          · rw [if_pos hr]
            intro _
            exact hr
          · rw [if_neg hr]
            exact ih
        · rw [if_neg hc]
          exact ih
      | reload files =>
        show isLoaded (reloadEvent files st') = true →
          (reloadEvent files st').datasets ≠ []
        unfold reloadEvent
        by_cases hf : files = []
        · rw [if_pos hf]
          exact ih
        · rw [if_neg hf]
          rcases hm : autoLoadBatch files with _ | r
          · simp only [hm]
            exact ih
          · simp only [hm]
            intro _
            exact autoLoadBatch_ne_nil files r hf hm
      | upload files =>
        show isLoaded (uploadEvent files st') = true →
          (uploadEvent files st').datasets ≠ []
        unfold uploadEvent
        by_cases hf : files = []
        · rw [if_pos hf]
          exact ih
        · rw [if_neg hf]
          rcases hu : uploadGo files st'.datasets with ⟨r, ok⟩
          simp only [hu]
          cases ok with
          | true =>
            intro _
            have := uploadGo_complete_ne_nil files st'.datasets hf
              (by rw [hu])
            rw [hu] at this
            exact this
          | false =>
            intro hl
            have hds := ih hl
            have hlen := uploadGo_fst_len files st'.datasets
            rw [hu] at hlen
            intro hnil
            rw [hnil] at hlen
            simp at hlen
            exact hds hlen
  · intro st
    unfold reloadEvent
    rw [if_pos rfl]

/-- C6 witness: the invariant direction of `C6_loaded_flag`
discharged at the reachable state after a startup load of the
sample file. -/
theorem C6_loaded_flag_witness :
    (stepEvent (Event.startup [sampleLT01]) initialState).datasets ≠ [] :=
  C6_loaded_flag.1 (stepEvent (Event.startup [sampleLT01]) initialState)
    (Reachable.step (Event.startup [sampleLT01]) Reachable.init) (by decide)

/-- C6 counterexample: after a successful startup load, a reload
that finds no files leaves `is_loaded() = true` and the registry
non-empty (the claim says it empties the registry and makes
`is_loaded()` false); moreover the iff form of the invariant fails
at a reachable state: an upload whose second file is malformed
aborts after inserting its first file, leaving a non-empty
registry with `is_loaded() = false`. -/
theorem C6_counterexample :
    isLoaded (stepEvent (Event.reload [])
      (stepEvent (Event.startup [sampleLT01]) initialState)) = true ∧
    (stepEvent (Event.reload [])
      (stepEvent (Event.startup [sampleLT01]) initialState)).datasets ≠ [] ∧
    isLoaded (stepEvent (Event.upload [sampleLT01, sampleBad])
      initialState) = false ∧
    (stepEvent (Event.upload [sampleLT01, sampleBad])
      initialState).datasets ≠ [] := by
  refine ⟨by decide, by decide, by decide, by decide⟩

/-- C1: the only per-file `try/except` sits in the startup
auto-load, which skips the malformed file and still loads the good
one; the sidebar reload (`auto_load_csv_files`, line 256) has no
exception handling, so one malformed file makes the whole batch
yield nothing regardless of position; the upload loop (line 3012)
stops at the malformed file, so files after it are never
attempted. -/
theorem C1_batch_abort :
    (readCsv sampleLT01.content).isSome = true ∧
    readCsv sampleBad.content = none ∧
    (startupScan [sampleLT01, sampleBad]).length = 1 ∧
    (startupScan [sampleBad, sampleLT01]).length = 1 ∧
    autoLoadBatch [sampleLT01, sampleBad] = none ∧
    autoLoadBatch [sampleBad, sampleLT01] = none ∧
    (uploadGo [sampleLT01, sampleBad] []).2 = false ∧
    (uploadGo [sampleLT01, sampleBad] []).1.length = 1 ∧
    (uploadGo [sampleBad, sampleLT01] []).1 = [] := by
  refine ⟨by decide, by decide, by decide, by decide, by decide, by decide,
    by decide, by decide, by decide⟩

theorem dictGet_dictInsert_self (k : Str) (v : Dataset) (r : Registry) :
    dictGet k (dictInsert k v r) = some v := by
  induction r with
  | nil => simp [dictInsert, dictGet]
  | cons e rest ih =>
    unfold dictInsert
    by_cases h : e.1 = k
    · simp [h, dictGet]
    · simp only [h, if_false]
      unfold dictGet
      simp [h, ih]

theorem dictGet_dictInsert_ne (k k' : Str) (v : Dataset) (r : Registry)
    (h : k' ≠ k) : dictGet k' (dictInsert k v r) = dictGet k' r := by
  induction r with
  | nil =>
    unfold dictInsert dictGet
    rw [if_neg (fun he : k = k' => h he.symm)]
    rfl
  | cons e rest ih =>
    unfold dictInsert
    by_cases he : e.1 = k
    · simp only [he, if_true]
      unfold dictGet
      have : ¬(k = k') := fun hk => h hk.symm
      simp [this, he]
    · simp only [he, if_false]
      unfold dictGet
      by_cases h2 : e.1 = k'
      · simp [h2]
      · simp [h2, ih]

/-- Behaviour of the upload loop when every file parses: it
completes, leaves unrelated keys untouched, deletes nothing, and
every uploaded id ends up mapped to the dataset built from one of
the batch's files carrying that id. -/
theorem uploadGo_merge (files : List SrcFile) (r : Registry)
    (hp : ∀ f ∈ files, (readCsv f.content).isSome = true) :
    (uploadGo files r).2 = true ∧
    (∀ k, k ∉ files.map (fun f => productIdFromUpload f.name) →
      dictGet k (uploadGo files r).1 = dictGet k r) ∧
    (∀ k d, dictGet k r = some d → ∃ d', dictGet k (uploadGo files r).1 = some d') ∧
    (∀ f ∈ files, ∃ g ∈ files,
      productIdFromUpload g.name = productIdFromUpload f.name ∧
      dictGet (productIdFromUpload f.name) (uploadGo files r).1 =
        (readCsv g.content).map (fun t => mkDataset t g.name)) := by
  induction files generalizing r with
  | nil =>
    refine ⟨rfl, fun k _ => rfl, fun k d hd => ⟨d, hd⟩, ?_⟩
    intro f hf
    simp at hf
  | cons f fs ih =>
    rcases Option.isSome_iff_exists.mp (hp f (by simp)) with ⟨t, ht⟩
    have hp' : ∀ g ∈ fs, (readCsv g.content).isSome = true :=
      fun g hg => hp g (by simp [hg])
    set r1 := dictInsert (productIdFromUpload f.name) (mkDataset t f.name) r
      with hr1
    have hgo : uploadGo (f :: fs) r = uploadGo fs r1 := by
      simp only [uploadGo, ht]
    rcases ih r1 hp' with ⟨ih1, ih2, ih3, ih4⟩
    refine ⟨by rw [hgo]; exact ih1, ?_, ?_, ?_⟩
    · intro k hk
      rw [hgo]
      have hk1 : k ∉ fs.map (fun g => productIdFromUpload g.name) := by
        intro hmem
        exact hk (by simp only [List.map_cons, List.mem_cons]; right; exact hmem)
      have hkf : k ≠ productIdFromUpload f.name := by
        intro he
        exact hk (by simp only [List.map_cons, List.mem_cons]; left; exact he)
      rw [ih2 k hk1, hr1, dictGet_dictInsert_ne _ _ _ _ hkf]
    · intro k d hd
      rw [hgo]
      by_cases hk : k = productIdFromUpload f.name
      · have : dictGet k r1 = some (mkDataset t f.name) := by
          rw [hr1, hk]
          exact dictGet_dictInsert_self _ _ _
        exact ih3 k (mkDataset t f.name) this
      · have : dictGet k r1 = some d := by
          rw [hr1, dictGet_dictInsert_ne _ _ _ _ hk]
          exact hd
        exact ih3 k d this
    · intro f' hf'
      rcases List.mem_cons.mp hf' with he | hmem
      · subst he
        by_cases hid : productIdFromUpload f'.name ∈
            fs.map (fun g => productIdFromUpload g.name)
        · rcases List.mem_map.mp hid with ⟨g, hg, hgid⟩
          rcases ih4 g hg with ⟨g', hg', hg'id, hval⟩
          refine ⟨g', by simp [hg'], ?_, ?_⟩
          · rw [hg'id, hgid]
          · rw [hgo]
            rw [hgid] at hval
            exact hval
        · refine ⟨f', by simp, rfl, ?_⟩
          rw [hgo, ih2 _ hid, hr1, dictGet_dictInsert_self, ht]
          rfl
      · rcases ih4 f' hmem with ⟨g, hg, hgid, hval⟩
        refine ⟨g, by simp [hg], hgid, ?_⟩
        rw [hgo]
        exact hval

theorem uploadGo_get_not_mem (files : List SrcFile) (r : Registry) (k : Str)
    (hk : k ∉ files.map (fun f => productIdFromUpload f.name)) :
    dictGet k (uploadGo files r).1 = dictGet k r := by
  induction files generalizing r with
  | nil => rfl
  | cons f fs ih =>
    have hkf : k ≠ productIdFromUpload f.name := by
      intro he
      exact hk (by simp only [List.map_cons, List.mem_cons]; left; exact he)
    have hk1 : k ∉ fs.map (fun g => productIdFromUpload g.name) := by
      intro hmem
      exact hk (by simp only [List.map_cons, List.mem_cons]; right; exact hmem)
    rcases hr : readCsv f.content with _ | t
    · simp only [uploadGo, hr]
    · simp only [uploadGo, hr]
      rw [ih _ hk1, dictGet_dictInsert_ne _ _ _ _ hkf]

theorem uploadGo_no_delete (files : List SrcFile) (r : Registry) (k : Str)
    (d : Dataset) (hd : dictGet k r = some d) :
    ∃ d', dictGet k (uploadGo files r).1 = some d' := by
  induction files generalizing r d with
  | nil => exact ⟨d, hd⟩
  | cons f fs ih =>
    rcases hr : readCsv f.content with _ | t
    · simp only [uploadGo, hr]
      exact ⟨d, hd⟩
    · simp only [uploadGo, hr]
      by_cases hk : k = productIdFromUpload f.name
      · exact ih _ (mkDataset t f.name) (by
          rw [hk]
          exact dictGet_dictInsert_self _ _ _)
      · exact ih _ d (by
          rw [dictGet_dictInsert_ne _ _ _ _ hk]
          exact hd)

/-- C9: an upload merges into the registry: every key not among
the uploaded product ids keeps its previous binding, and no entry
is ever deleted, whatever the batch does; when every file of the
batch parses, each uploaded product id moreover ends up bound to
the dataset of a batch file carrying that id (overwriting any
previous binding). -/
theorem C9_upload_merge (files : List SrcFile) (st : SessionState) :
    (∀ k, k ∉ files.map (fun f => productIdFromUpload f.name) →
      dictGet k (uploadEvent files st).datasets = dictGet k st.datasets) ∧
    (∀ k d, dictGet k st.datasets = some d →
      ∃ d', dictGet k (uploadEvent files st).datasets = some d') ∧
    ((∀ f ∈ files, (readCsv f.content).isSome = true) →
      ∀ f ∈ files, ∃ g ∈ files,
        productIdFromUpload g.name = productIdFromUpload f.name ∧
        dictGet (productIdFromUpload f.name) (uploadEvent files st).datasets =
          (readCsv g.content).map (fun t => mkDataset t g.name)) := by
  by_cases hf : files = []
  · subst hf
    refine ⟨?_, ?_, ?_⟩
    · intro k _
      simp [uploadEvent]
    · intro k d hd
      exact ⟨d, by simpa [uploadEvent] using hd⟩
    · intro _ f hf
      simp at hf
  · have hev : (uploadEvent files st).datasets = (uploadGo files st.datasets).1 := by
      unfold uploadEvent
      rw [if_neg hf]
    rw [hev]
    refine ⟨fun k hk => uploadGo_get_not_mem files st.datasets k hk,
      fun k d hd => uploadGo_no_delete files st.datasets k d hd, ?_⟩
    intro hp
    exact (uploadGo_merge files st.datasets hp).2.2.2

/-- C9 witness: `C9_upload_merge` discharged at an upload of the
HR sample onto the state already holding the LT sample: the old
key survives and the new key is bound. -/
theorem C9_upload_merge_witness :
    dictGet "CHEDS-LT-01".data
      (uploadEvent [sampleHR21]
        (stepEvent (Event.startup [sampleLT01]) initialState)).datasets =
      dictGet "CHEDS-LT-01".data
        (stepEvent (Event.startup [sampleLT01]) initialState).datasets :=
  (C9_upload_merge [sampleHR21]
      (stepEvent (Event.startup [sampleLT01]) initialState)).1
    "CHEDS-LT-01".data (by decide)

/-! ## Properties of the stable descending sort -/

theorem mem_insDesc [LinearOrder β] {f : α → β} (x a : α) (l : List α) :
    a ∈ insDesc f x l ↔ a = x ∨ a ∈ l := by
  induction l with
  | nil => simp [insDesc]
  | cons y ys ih =>
    unfold insDesc
    by_cases h : f y ≤ f x
    · simp [h]
    · simp only [h, if_false, List.mem_cons, ih]
      tauto

theorem insDesc_perm [LinearOrder β] {f : α → β} (x : α) (l : List α) :
    List.Perm (insDesc f x l) (x :: l) := by
  induction l with
  | nil => exact List.Perm.refl _
  | cons y ys ih =>
    unfold insDesc
    by_cases h : f y ≤ f x
    · rw [if_pos h]
    · rw [if_neg h]
      exact List.Perm.trans (List.Perm.cons y ih) (List.Perm.swap x y ys)

theorem sortDesc_perm [LinearOrder β] {f : α → β} (l : List α) :
    List.Perm (sortDesc f l) l := by
  induction l with
  | nil => exact List.Perm.refl _
  | cons x xs ih =>
    show List.Perm (insDesc f x (sortDesc f xs)) (x :: xs)
    exact List.Perm.trans (insDesc_perm x _) (List.Perm.cons x ih)

theorem mem_sortDesc [LinearOrder β] {f : α → β} (a : α) (l : List α) :
    a ∈ sortDesc f l ↔ a ∈ l :=
  (sortDesc_perm l).mem_iff

theorem pairwise_insDesc [LinearOrder β] {f : α → β} {S : α → α → Prop}
    {x : α} {l : List α}
    (hl : l.Pairwise (fun a b => f b < f a ∨ (f a = f b ∧ S a b)))
    (hx : ∀ y ∈ l, f x = f y → S x y) :
    (insDesc f x l).Pairwise (fun a b => f b < f a ∨ (f a = f b ∧ S a b)) := by
  induction l with
  | nil => simp [insDesc]
  | cons y ys ih =>
    unfold insDesc
    by_cases h : f y ≤ f x
    · rw [if_pos h]
      refine List.Pairwise.cons ?_ hl
      intro z hz
      rcases List.mem_cons.mp hz with he | hmem
      · subst he
        rcases lt_or_eq_of_le h with h1 | h1
        · exact Or.inl h1
        · exact Or.inr ⟨h1.symm, hx z (by simp) h1.symm⟩
      · have hyz := (List.pairwise_cons.mp hl).1 z hmem
        rcases hyz with h1 | ⟨h1, _⟩
        · rcases lt_or_eq_of_le h with h2 | h2
          · exact Or.inl (lt_trans h1 h2)
          · exact Or.inl (h2 ▸ h1)
        · rcases lt_or_eq_of_le h with h2 | h2
          · exact Or.inl (h1 ▸ h2)
          · refine Or.inr ⟨by rw [← h2, h1], ?_⟩
            exact hx z (by simp [hmem]) (by rw [← h2, h1])
    · rw [if_neg h]
      have hxy : f x < f y := lt_of_not_le h
      refine List.Pairwise.cons ?_ (ih (List.pairwise_cons.mp hl).2
        (fun z hz hfz => hx z (by simp [hz]) hfz))
      intro z hz
      rcases (mem_insDesc x z ys).mp hz with he | hmem
      · subst he
        exact Or.inl hxy
      · exact (List.pairwise_cons.mp hl).1 z hmem

theorem pairwise_sortDesc [LinearOrder β] {f : α → β} {S : α → α → Prop}
    {l : List α}
    (h : l.Pairwise (fun a b => f a = f b → S a b)) :
    (sortDesc f l).Pairwise (fun a b => f b < f a ∨ (f a = f b ∧ S a b)) := by
  induction l with
  | nil => exact List.Pairwise.nil
  | cons x xs ih =>
    show (insDesc f x (sortDesc f xs)).Pairwise _
    rcases List.pairwise_cons.mp h with ⟨hx, hxs⟩
    exact pairwise_insDesc (ih hxs)
      (fun y hy hfy => hx y ((mem_sortDesc y xs).mp hy) hfy)

/-! ## Properties of first-occurrence deduplication -/

theorem mem_dedupF (a : Cell) (l : List Cell) : a ∈ dedupF l ↔ a ∈ l := by
  induction l with
  | nil => simp [dedupF]
  | cons x xs ih =>
    unfold dedupF
    simp only [List.mem_cons, List.mem_filter, ih, decide_eq_true_eq]
    constructor
    · rintro (he | ⟨hmem, _⟩)
      · exact Or.inl he
      · exact Or.inr hmem
    · rintro (he | hmem)
      · exact Or.inl he
      · by_cases hax : a = x
        · exact Or.inl hax
        · exact Or.inr ⟨hmem, hax⟩

theorem dedupF_nodup (l : List Cell) : (dedupF l).Nodup := by
  induction l with
  | nil => simp [dedupF]
  | cons x xs ih =>
    unfold dedupF
    refine List.Pairwise.cons ?_ (List.Nodup.filter _ ih)
    intro a ha
    rcases List.mem_filter.mp ha with ⟨_, hne⟩
    simp only [decide_eq_true_eq] at hne
    exact fun he => hne he.symm

theorem firstIdx_cons_self (v : Cell) (xs : List Cell) :
    firstIdx v (v :: xs) = 0 := by
  simp [firstIdx]

theorem firstIdx_cons_ne (v x : Cell) (xs : List Cell) (h : x ≠ v) :
    firstIdx v (x :: xs) = firstIdx v xs + 1 := by
  simp [firstIdx, h]

theorem dedupF_pairwise_firstIdx (m : List Cell) :
    (dedupF m).Pairwise (fun u v => firstIdx u m < firstIdx v m) := by
  induction m with
  | nil => simp [dedupF]
  | cons x xs ih =>
    unfold dedupF
    refine List.Pairwise.cons ?_ ?_
    · intro v hv
      rcases List.mem_filter.mp hv with ⟨_, hne⟩
      simp only [decide_eq_true_eq] at hne
      rw [firstIdx_cons_self, firstIdx_cons_ne v x xs (fun he => hne he.symm)]
      omega
    · have hfil : ((dedupF xs).filter (fun y => decide (y ≠ x))).Pairwise
          (fun u v => firstIdx u xs < firstIdx v xs) :=
        List.Pairwise.filter _ ih
      refine hfil.imp_of_mem ?_
      intro u v hu hv h
      have hune : u ≠ x := by
        rcases List.mem_filter.mp hu with ⟨_, h2⟩
        simpa using h2
      have hvne : v ≠ x := by
        rcases List.mem_filter.mp hv with ⟨_, h2⟩
        simpa using h2
      rw [firstIdx_cons_ne u x xs (fun he => hune he.symm),
        firstIdx_cons_ne v x xs (fun he => hvne he.symm)]
      omega

theorem firstIdx_filter_lt_iff (p : Cell → Bool) (l : List Cell) (u v : Cell)
    (hu : p u = true) (hv : p v = true) (hul : u ∈ l) (hvl : v ∈ l) :
    (firstIdx u (l.filter p) < firstIdx v (l.filter p) ↔
      firstIdx u l < firstIdx v l) := by
  induction l with
  | nil => simp at hul
  | cons x xs ih =>
    by_cases hpx : p x = true
    · rw [List.filter_cons_of_pos hpx]
      by_cases hux : x = u
      · subst hux
        rw [firstIdx_cons_self, firstIdx_cons_self]
        by_cases hvx : x = v
        · subst hvx
          rw [firstIdx_cons_self, firstIdx_cons_self]
        · rw [firstIdx_cons_ne v x _ hvx, firstIdx_cons_ne v x xs hvx]
          omega
      · rw [firstIdx_cons_ne u x _ hux, firstIdx_cons_ne u x xs hux]
        by_cases hvx : x = v
        · subst hvx
          rw [firstIdx_cons_self, firstIdx_cons_self]
          omega
        · rw [firstIdx_cons_ne v x _ hvx, firstIdx_cons_ne v x xs hvx]
          have hul' : u ∈ xs := by
            rcases List.mem_cons.mp hul with he | hm
            · exact absurd he.symm hux
            · exact hm
          have hvl' : v ∈ xs := by
            rcases List.mem_cons.mp hvl with he | hm
            · exact absurd he.symm hvx
            · exact hm
          have := ih hul' hvl'
          omega
    · have hux : x ≠ u := fun he => hpx (he ▸ hu)
      have hvx : x ≠ v := fun he => hpx (he ▸ hv)
      rw [List.filter_cons_of_neg (by simpa using hpx)]
      rw [firstIdx_cons_ne u x xs hux, firstIdx_cons_ne v x xs hvx]
      have hul' : u ∈ xs := by
        rcases List.mem_cons.mp hul with he | hm
        · exact absurd he.symm hux
        · exact hm
      have hvl' : v ∈ xs := by
        rcases List.mem_cons.mp hvl with he | hm
        · exact absurd he.symm hvx
        · exact hm
      have := ih hul' hvl'
      omega

/-- C8: `value_counts` lists each distinct non-missing value with
its number of occurrences, no value twice, in descending order of
count with ties broken by first-encountered order; `head n` is the
top-`n` truncation; and on
`["A","B","A","C","B","A"]` it returns exactly
`[("A",3),("B",2),("C",1)]`. -/
theorem C8_value_counts :
    (∀ l : List Cell,
      (∀ p ∈ valueCounts l, p.2 = countVal p.1 l ∧ p.1 ≠ Cell.missing) ∧
      (∀ v : Cell, (∃ n, (v, n) ∈ valueCounts l) ↔
        (v ∈ l ∧ v ≠ Cell.missing)) ∧
      ((valueCounts l).map Prod.fst).Nodup ∧
      (valueCounts l).Pairwise (fun a b =>
        b.2 < a.2 ∨ (a.2 = b.2 ∧ firstIdx a.1 l < firstIdx b.1 l)) ∧
      (∀ n, valueCountsTop n l = (valueCounts l).take n)) ∧
    valueCounts
        [Cell.str "A".data, Cell.str "B".data, Cell.str "A".data,
          Cell.str "C".data, Cell.str "B".data, Cell.str "A".data] =
      [(Cell.str "A".data, 3), (Cell.str "B".data, 2),
        (Cell.str "C".data, 1)] := by
  constructor
  · intro l
    set p : Cell → Bool := fun c => decide (c ≠ Cell.missing) with hp
    set pairs : List (Cell × Nat) :=
      (dedupF (l.filter p)).map (fun v => (v, countVal v l)) with hpairs
    have hvc : valueCounts l = sortDesc (fun q => q.2) pairs := rfl
    refine ⟨?_, ?_, ?_, ?_, fun n => rfl⟩
    · intro q hq
      rw [hvc] at hq
      have hq' : q ∈ pairs := (mem_sortDesc q pairs).mp hq
      rcases List.mem_map.mp hq' with ⟨v, hv, he⟩
      have hv' : v ∈ l.filter p := (mem_dedupF v _).mp hv
      rcases List.mem_filter.mp hv' with ⟨_, hvp⟩
      subst he
      refine ⟨rfl, ?_⟩
      simpa [hp] using hvp
    · intro v
      constructor
      · rintro ⟨n, hn⟩
        rw [hvc] at hn
        have hn' : (v, n) ∈ pairs := (mem_sortDesc _ pairs).mp hn
        rcases List.mem_map.mp hn' with ⟨u, hu, he⟩
        have heu : u = v := congrArg Prod.fst he
        subst heu
        have hu' : u ∈ l.filter p := (mem_dedupF u _).mp hu
        rcases List.mem_filter.mp hu' with ⟨hmem, hup⟩
        exact ⟨hmem, by simpa [hp] using hup⟩
      · rintro ⟨hmem, hne⟩
        refine ⟨countVal v l, ?_⟩
        rw [hvc]
        refine (mem_sortDesc _ pairs).mpr ?_
        refine List.mem_map.mpr ⟨v, ?_, rfl⟩
        refine (mem_dedupF v _).mpr ?_
        exact List.mem_filter.mpr ⟨hmem, by simpa [hp]⟩
    · have hperm : List.Perm ((valueCounts l).map Prod.fst)
          (pairs.map Prod.fst) := by
        rw [hvc]
        exact List.Perm.map Prod.fst (sortDesc_perm pairs)
      have hfst : pairs.map Prod.fst = dedupF (l.filter p) := by
        rw [hpairs, List.map_map]
        rw [show (Prod.fst ∘ fun v : Cell => (v, countVal v l)) = id from rfl,
          List.map_id]
      refine hperm.nodup_iff.mpr ?_
      rw [hfst]
      exact dedupF_nodup _
    · have hded : (dedupF (l.filter p)).Pairwise
          (fun u v => firstIdx u l < firstIdx v l) := by
        refine (dedupF_pairwise_firstIdx (l.filter p)).imp_of_mem ?_
        intro u v hu hv h
        have hu' := List.mem_filter.mp ((mem_dedupF u _).mp hu)
        have hv' := List.mem_filter.mp ((mem_dedupF v _).mp hv)
        exact (firstIdx_filter_lt_iff p l u v hu'.2 hv'.2 hu'.1 hv'.1).mp h
      have hpw : pairs.Pairwise (fun a b => a.2 = b.2 →
          firstIdx a.1 l < firstIdx b.1 l) := by
        rw [hpairs]
        exact List.Pairwise.map _ (fun u v h _ => h) hded
      have hsor := pairwise_sortDesc (f := fun q : Cell × Nat => q.2) hpw
      rw [hvc]
      exact hsor
  · decide

/-- C8 witness: the count and tie conjuncts of `C8_value_counts`
discharged at the spec's example column. -/
theorem C8_value_counts_witness :
    ((Cell.str "A".data, 3) ∈ valueCounts
        [Cell.str "A".data, Cell.str "B".data, Cell.str "A".data,
          Cell.str "C".data, Cell.str "B".data, Cell.str "A".data] →
      (3 : Nat) = countVal (Cell.str "A".data)
        [Cell.str "A".data, Cell.str "B".data, Cell.str "A".data,
          Cell.str "C".data, Cell.str "B".data, Cell.str "A".data] ∧
      Cell.str "A".data ≠ Cell.missing) ∧
    (3 : Nat) = countVal (Cell.str "A".data)
      [Cell.str "A".data, Cell.str "B".data, Cell.str "A".data,
        Cell.str "C".data, Cell.str "B".data, Cell.str "A".data] :=
  ⟨fun h => (C8_value_counts.1 _).1 (Cell.str "A".data, 3) h,
   ((C8_value_counts.1 _).1 (Cell.str "A".data, 3) (by decide)).1⟩

/-! ## The group-key order is a strict linear order -/

theorem strLtB_trans (a b c : Str) (hab : strLtB a b = true)
    (hbc : strLtB b c = true) : strLtB a c = true := by
  induction a generalizing b c with
  | nil =>
    cases b with
    | nil => simp [strLtB] at hab
    | cons b1 bs =>
      cases c with
      | nil => simp [strLtB] at hbc
      | cons c1 cs => simp [strLtB]
  | cons a1 as ih =>
    cases b with
    | nil => simp [strLtB] at hab
    | cons b1 bs =>
      cases c with
      | nil => simp [strLtB] at hbc
      | cons c1 cs =>
        unfold strLtB at hab hbc ⊢
        by_cases h1 : a1 < b1
        · by_cases h2 : b1 < c1
          · rw [if_pos (lt_trans h1 h2)]
          · rw [if_neg h2] at hbc
            by_cases h3 : c1 < b1
            · rw [if_pos h3] at hbc
              exact absurd hbc (by simp)
            · have hbc1 : b1 = c1 := le_antisymm (not_lt.mp h3) (not_lt.mp h2)
              rw [if_pos (hbc1 ▸ h1)]
        · rw [if_neg h1] at hab
          by_cases h1' : b1 < a1
          · rw [if_pos h1'] at hab
            exact absurd hab (by simp)
          · have hab1 : a1 = b1 := le_antisymm (not_lt.mp h1') (not_lt.mp h1)
            rw [if_neg h1'] at hab
            subst hab1
            by_cases h2 : a1 < c1
            · rw [if_pos h2]
            · rw [if_neg h2] at hbc ⊢
              by_cases h3 : c1 < a1
              · rw [if_pos h3] at hbc
                exact absurd hbc (by simp)
              · rw [if_neg h3] at hbc ⊢
                exact ih bs cs hab hbc

theorem strLtB_connex (a b : Str) (h : a ≠ b) :
    strLtB a b = true ∨ strLtB b a = true := by
  induction a generalizing b with
  | nil =>
    cases b with
    | nil => exact absurd rfl h
    | cons b1 bs => exact Or.inl (by simp [strLtB])
  | cons a1 as ih =>
    cases b with
    | nil => exact Or.inr (by simp [strLtB])
    | cons b1 bs =>
      unfold strLtB
      by_cases h1 : a1 < b1
      · exact Or.inl (by rw [if_pos h1])
      · by_cases h2 : b1 < a1
        · exact Or.inr (by rw [if_pos h2])
        · have he : a1 = b1 := le_antisymm (not_lt.mp h2) (not_lt.mp h1)
          have hs : as ≠ bs := by
            intro hes
            exact h (by rw [he, hes])
          rw [if_neg h1, if_neg h2, if_neg (he ▸ h2), if_neg (he ▸ h1)]
          exact ih bs hs

theorem cellLtB_trans (a b c : Cell) (hab : cellLtB a b = true)
    (hbc : cellLtB b c = true) : cellLtB a c = true := by
  cases a with
  | missing =>
    cases c with
    | missing =>
      cases b <;> simp [cellLtB] at hab hbc ⊢
    | int n => simp [cellLtB]
    | str s => simp [cellLtB]
  | int m =>
    cases b with
    | missing => simp [cellLtB] at hab
    | int n =>
      cases c with
      | missing => simp [cellLtB] at hbc
      | int k =>
        simp only [cellLtB, decide_eq_true_eq] at hab hbc ⊢
        omega
      | str s => simp [cellLtB]
    | str s =>
      cases c with
      | missing => simp [cellLtB] at hbc
      | int k => simp [cellLtB] at hbc
      | str s2 => simp [cellLtB]
  | str s =>
    cases b with
    | missing => simp [cellLtB] at hab
    | int n => simp [cellLtB] at hab
    | str s2 =>
      cases c with
      | missing => simp [cellLtB] at hbc
      | int k => simp [cellLtB] at hbc
      | str s3 =>
        simp only [cellLtB] at hab hbc ⊢
        exact strLtB_trans s s2 s3 hab hbc

theorem cellLtB_connex (a b : Cell) (h : a ≠ b) :
    cellLtB a b = true ∨ cellLtB b a = true := by
  cases a with
  | missing =>
    cases b with
    | missing => exact absurd rfl h
    | int n => exact Or.inl (by simp [cellLtB])
    | str s => exact Or.inl (by simp [cellLtB])
  | int m =>
    cases b with
    | missing => exact Or.inr (by simp [cellLtB])
    | int n =>
      have : m ≠ n := fun he => h (by rw [he])
      simp only [cellLtB, decide_eq_true_eq]
      omega
    | str s => exact Or.inl (by simp [cellLtB])
  | str s =>
    cases b with
    | missing => exact Or.inr (by simp [cellLtB])
    | int n => exact Or.inr (by simp [cellLtB])
    | str s2 =>
      have : s ≠ s2 := fun he => h (by rw [he])
      simp only [cellLtB]
      exact strLtB_connex s s2 this

theorem mem_insAsc (x a : Cell) (l : List Cell) :
    a ∈ insAsc x l ↔ a = x ∨ a ∈ l := by
  induction l with
  | nil => simp [insAsc]
  | cons y ys ih =>
    unfold insAsc
    by_cases h : cellLtB x y = true
    · rw [if_pos h]
      simp only [List.mem_cons]
    · rw [if_neg h]
      simp only [List.mem_cons, ih]
      tauto

theorem mem_sortAsc (a : Cell) (l : List Cell) :
    a ∈ sortAsc l ↔ a ∈ l := by
  induction l with
  | nil => simp [sortAsc]
  | cons x xs ih =>
    show a ∈ insAsc x (sortAsc xs) ↔ _
    rw [mem_insAsc, ih]
    simp

theorem pairwise_insAsc (x : Cell) (l : List Cell)
    (hl : l.Pairwise (fun a b => cellLtB a b = true))
    (hx : ∀ y ∈ l, x ≠ y) :
    (insAsc x l).Pairwise (fun a b => cellLtB a b = true) := by
  induction l with
  | nil => simp [insAsc]
  | cons y ys ih =>
    unfold insAsc
    by_cases h : cellLtB x y = true
    · rw [if_pos h]
      refine List.Pairwise.cons ?_ hl
      intro z hz
      rcases List.mem_cons.mp hz with he | hmem
      · exact he ▸ h
      · exact cellLtB_trans x y z h ((List.pairwise_cons.mp hl).1 z hmem)
    · rw [if_neg h]
      have hyx : cellLtB y x = true := by
        rcases cellLtB_connex x y (hx y (by simp)) with h1 | h1
        · exact absurd h1 h
        · exact h1
      refine List.Pairwise.cons ?_ (ih (List.pairwise_cons.mp hl).2
        (fun z hz => hx z (by simp [hz])))
      intro z hz
      rcases (mem_insAsc x z ys).mp hz with he | hmem
      · exact he ▸ hyx
      · exact (List.pairwise_cons.mp hl).1 z hmem

theorem pairwise_sortAsc (l : List Cell) (h : l.Nodup) :
    (sortAsc l).Pairwise (fun a b => cellLtB a b = true) := by
  induction l with
  | nil => simp [sortAsc]
  | cons x xs ih =>
    show (insAsc x (sortAsc xs)).Pairwise _
    rcases List.nodup_cons.mp h with ⟨hx, hxs⟩
    refine pairwise_insAsc x (sortAsc xs) (ih hxs) ?_
    intro y hy he
    exact hx (he ▸ (mem_sortAsc y xs).mp hy)

/-- The strict order on text is irreflexive. -/
theorem strLtB_irrefl (a : Str) : strLtB a a = false := by
  induction a with
  | nil => rfl
  | cons c cs ih =>
    show strLtB (c :: cs) (c :: cs) = false
    unfold strLtB
    rw [if_neg (lt_irrefl c), if_neg (lt_irrefl c)]
    exact ih

/-- The strict order on cells is irreflexive. -/
theorem cellLtB_irrefl (a : Cell) : cellLtB a a = false := by
  cases a with
  | missing => rfl
  | int m => simp [cellLtB]
  | str s =>
    show strLtB s s = false
    exact strLtB_irrefl s

/-- The strict order on cells is asymmetric. -/
theorem cellLtB_asymm (a b : Cell) (hab : cellLtB a b = true)
    (hba : cellLtB b a = true) : False := by
  have h := cellLtB_trans a b a hab hba
  rw [cellLtB_irrefl a] at h
  exact absurd h (by simp)

/-- The cell order packaged as a linear order, so aggregates can be
sorted by it (pandas `sort_values` compares one dtype at a time:
integers numerically, strings lexicographically). -/
instance : LinearOrder Cell where
  le a b := cellLtB a b = true ∨ a = b
  lt a b := cellLtB a b = true
  le_refl a := Or.inr rfl
  le_trans := by
    intro a b c hab hbc
    rcases hab with hab | hab
    · rcases hbc with hbc | hbc
      · exact Or.inl (cellLtB_trans a b c hab hbc)
      · exact Or.inl (hbc ▸ hab)
    · rw [hab]
      exact hbc
  le_antisymm := by
    intro a b hab hba
    rcases hab with hab | hab
    · rcases hba with hba | hba
      · exact False.elim (cellLtB_asymm a b hab hba)
      · exact hba.symm
    · exact hab
  le_total := by
    intro a b
    by_cases he : a = b
    · exact Or.inl (Or.inr he)
    · rcases cellLtB_connex a b he with h | h
      · exact Or.inl (Or.inl h)
      · exact Or.inr (Or.inl h)
  lt_iff_le_not_le := by
    intro a b
    constructor
    · intro h
      refine ⟨Or.inl h, ?_⟩
      intro hba
      rcases hba with hba | hba
      · exact cellLtB_asymm a b h hba
      · rw [hba] at h
        exact cellLtB_asymm a a h h
    · rintro ⟨hab, hnba⟩
      rcases hab with hab | hab
      · exact hab
      · exact absurd (Or.inr hab.symm) hnba
  decidableLE := fun a b =>
    inferInstanceAs (Decidable (cellLtB a b = true ∨ a = b))

/-- The strict order of the `Cell` linear order is `cellLtB`. -/
theorem cellLt_iff (a b : Cell) : a < b ↔ cellLtB a b = true := Iff.rfl

/-- Model of `df.groupby(gcol)[vcol].sum().reset_index()` at line 526 (no
`to_numeric` is applied there): keys in ascending order, and the value
column aggregated according to its dtype — an integer column sums
numerically with missing cells skipped; an object (text) column
concatenates each group's strings in row order with missing cells
skipped; a column mixing integers and text makes the sum raise
`TypeError` (`none`). -/
def groupedSum (t : Table) (gcol vcol : Str) : Option (List (Cell × Cell)) :=
  if (colValues t vcol).all intCellOk then
    some ((groupKeys t gcol).map (fun k =>
      (k, Cell.int (((groupCells t gcol vcol k).filterMap cellNum).sum))))
  else if (colValues t vcol).all textCellOk then
    some ((groupKeys t gcol).map (fun k =>
      (k, Cell.str ((groupCells t gcol vcol k).filterMap cellText).flatten)))
  else none

/-- Model of `.sort_values(vcol, ascending=False).head(n)` applied to the
grouped sums (line 527): a stable descending sort on the aggregate
(numeric for integer sums, lexicographic for concatenated text). -/
def groupedSumTop (n : Nat) (t : Table) (gcol vcol : Str) :
    Option (List (Cell × Cell)) :=
  (groupedSum t gcol vcol).map (fun l => (sortDesc (fun p => p.2) l).take n)

/-- A CHEDS-LT-01-shaped table with two groups, `B` appearing
before `A`, carrying equal sums. -/
def tieTable : Table :=
  { header := ["App_Institution_Name".data, "App_Applicants".data]
    rows := [[Cell.str "B".data, Cell.int 5], [Cell.str "A".data, Cell.int 5]] }

/-- A table whose value column is text: a numeric-coercible token
`5` next to a non-coercible token `abc`, both in group `A`. -/
def concatTable : Table :=
  { header := ["App_Institution_Name".data, "App_Applicants".data]
    rows := [[Cell.str "A".data, Cell.str "5".data],
      [Cell.str "A".data, Cell.str "abc".data]] }

/-- Cell of a row at a column index (missing when out of range). -/
def cellAt (row : List Cell) (j : Nat) : Cell := (row.get? j).getD Cell.missing

/-- May this cell sit in a text column that re-parses exactly?
Text must not collide with an NA token (`read_csv` would turn it
into NaN even when quoted). -/
def strCellOk : Cell → Bool
  | Cell.str s => !isNA s
  | Cell.missing => true
  | Cell.int _ => false

/-- Does this cell pin its column to text on re-parse? A text cell
that is neither an NA token nor any token the type inference would
convert: not an integer, float or boolean literal, whitespace
padding included. -/
def strColWitness : Cell → Bool
  | Cell.str s => !isNA s && !retypedTok s
  | _ => false

/-- Column `j` holds only integer/missing cells. -/
def intColAt (t : Table) (j : Nat) : Bool :=
  t.rows.all (fun row => intCellOk (cellAt row j))

/-- Column `j` holds only re-parseable text/missing cells, at least
one of which pins the column to text. -/
def strColAt (t : Table) (j : Nat) : Bool :=
  t.rows.all (fun row => strCellOk (cellAt row j)) &&
    t.rows.any (fun row => strColWitness (cellAt row j))

/-- A table whose exported CSV re-parses to exactly the same
table: rectangular, at least one column, every column either an
integer column or a text column pinned by a cell no inference
re-types, and no row or header that would be written as a blank
line (which `read_csv` skips): with a single column, names must be
non-empty and cells non-missing. -/
def exportStable (t : Table) : Bool :=
  decide (t.header ≠ []) &&
  t.rows.all (fun row => decide (row.length = t.header.length)) &&
  (List.range t.header.length).all (fun j => intColAt t j || strColAt t j) &&
  (decide (2 ≤ t.header.length) ||
    (t.header.all (fun nm => decide (nm ≠ [])) &&
      t.rows.all (fun row => row.all (fun c => decide (c ≠ Cell.missing)))))

/-- The raw token records a table is written as: the header names,
then each row's cell tokens. -/
def tokenLines (t : Table) : List (List Str) :=
  t.header :: t.rows.map (fun row => row.map cellToken)

theorem scan_plain (tkn : Str)
    (h : ∀ c ∈ tkn, c ≠ ',' ∧ c ≠ '\n' ∧ c ≠ '"') :
    ∀ (rest f : Str) (r : List Str) (acc : List (List Str)),
    scanCSV ScanMode.plain (tkn ++ rest) f r acc =
      scanCSV ScanMode.plain rest (tkn.reverse ++ f) r acc := by
  induction tkn with
  | nil => intro rest f r acc; rfl
  | cons c cs ih =>
    intro rest f r acc
    rcases h c (by simp) with ⟨h1, h2, h3⟩
    show scanCSV ScanMode.plain (c :: (cs ++ rest)) f r acc = _
    rw [scanCSV]
    rw [if_neg h1, if_neg h2, if_neg h3]
    rw [ih (fun x hx => h x (by simp [hx])) rest (c :: f) r acc]
    congr 1
    simp

theorem scan_quoteSeen_ne (c : Char) (cs f : Str) (r : List Str)
    (acc : List (List Str)) (hc : c ≠ '"') :
    scanCSV ScanMode.quoteSeen (c :: cs) f r acc =
      scanCSV ScanMode.plain (c :: cs) f r acc := by
  rw [scanCSV, scanCSV, if_neg hc]
  by_cases h1 : c = ','
  · rw [if_pos h1, if_pos h1]
  · rw [if_neg h1, if_neg h1]
    by_cases h2 : c = '\n'
    · rw [if_pos h2, if_pos h2]
    · rw [if_neg h2, if_neg h2, if_neg hc]

theorem scan_quoted (s : Str) :
    ∀ (rest f : Str) (r : List Str) (acc : List (List Str)),
    (∀ c2 cs2, rest = c2 :: cs2 → c2 ≠ '"') →
    (s ≠ [] ∨ f ≠ []) →
    scanCSV ScanMode.quoted (escapeQuotes s ++ '"' :: rest) f r acc =
      scanCSV ScanMode.plain rest (s.reverse ++ f) r acc := by
  induction s with
  | nil =>
    intro rest f r acc hrest hne
    have hf : f ≠ [] := by
      rcases hne with h | h
      · exact absurd rfl h
      · exact h
    show scanCSV ScanMode.quoted ('"' :: rest) f r acc = _
    rw [scanCSV, if_pos rfl]
    cases rest with
    | nil =>
      rw [scanCSV, scanCSV, if_neg (by simp [hf])]
      simp
    | cons c2 cs2 =>
      rw [scan_quoteSeen_ne c2 cs2 f r acc (hrest c2 cs2 rfl)]
      simp
  | cons c cs ih =>
    intro rest f r acc hrest _
    unfold escapeQuotes
    by_cases hc : c = '"'
    · rw [if_pos hc]
      show scanCSV ScanMode.quoted
        ('"' :: '"' :: (escapeQuotes cs ++ '"' :: rest)) f r acc = _
      rw [scanCSV, if_pos rfl]
      rw [scanCSV, if_pos rfl]
      rw [ih rest ('"' :: f) r acc hrest (Or.inr (by simp))]
      congr 1
      rw [hc]
      simp
    · rw [if_neg hc]
      show scanCSV ScanMode.quoted (c :: (escapeQuotes cs ++ '"' :: rest)) f r acc = _
      rw [scanCSV, if_neg hc]
      rw [ih rest (c :: f) r acc hrest (Or.inr (by simp))]
      congr 1
      simp

theorem scan_field (tok rest : Str) (r : List Str) (acc : List (List Str))
    (hrest : ∀ c2 cs2, rest = c2 :: cs2 → c2 = ',' ∨ c2 = '\n') :
    scanCSV ScanMode.plain (renderField tok ++ rest) [] r acc =
      scanCSV ScanMode.plain rest tok.reverse r acc := by
  unfold renderField
  by_cases hq : needsQuote tok = true
  · rw [if_pos hq]
    have htok : tok ≠ [] := by
      intro he
      rw [he] at hq
      exact absurd hq (by decide)
    show scanCSV ScanMode.plain ('"' :: (escapeQuotes tok ++ ['"'] ++ rest)) [] r acc = _
    rw [scanCSV]
    rw [if_neg (by decide), if_neg (by decide), if_pos rfl]
    have hassoc : escapeQuotes tok ++ ['"'] ++ rest =
        escapeQuotes tok ++ '"' :: rest := by simp
    rw [hassoc, scan_quoted tok rest [] r acc ?hne (Or.inl htok)]
    · simp
    · intro c2 cs2 he
      rcases hrest c2 cs2 he with h | h <;> subst h <;> decide
  · rw [if_neg hq]
    have hplain : ∀ c ∈ tok, c ≠ ',' ∧ c ≠ '\n' ∧ c ≠ '"' := by
      intro c hc
      have : ¬(c = ',' ∨ c = '"' ∨ c = '\n' ∨ c = '\r') := by
        intro hor
        apply hq
        unfold needsQuote
        rw [List.any_eq_true]
        refine ⟨c, hc, ?_⟩
        rcases hor with h | h | h | h <;> simp [h]
      push_neg at this
      exact ⟨this.1, this.2.2.1, this.2.1⟩
    rw [scan_plain tok hplain rest [] r acc]
    congr 1
    simp

theorem scan_line (toks : List Str) (hne : toks ≠ []) :
    ∀ (r : List Str) (rest : Str) (acc : List (List Str)),
    scanCSV ScanMode.plain (renderLine (toks.map renderField) ++ '\n' :: rest)
        [] r acc =
      scanCSV ScanMode.plain rest [] [] ((toks.reverse ++ r).reverse :: acc) := by
  induction toks with
  | nil => exact absurd rfl hne
  | cons tok ts ih =>
    intro r rest acc
    cases ts with
    | nil =>
      show scanCSV ScanMode.plain
        (renderLine [renderField tok] ++ '\n' :: rest) [] r acc = _
      unfold renderLine
      rw [if_pos rfl]
      rw [List.append_nil]
      rw [scan_field tok ('\n' :: rest) r acc
        (fun c2 cs2 he => Or.inr (by injection he with h1 h2; exact h1.symm))]
      rw [scanCSV]
      rw [if_neg (by decide), if_pos rfl]
      congr 2
      simp
    | cons t2 ts2 =>
      show scanCSV ScanMode.plain
        (renderLine (renderField tok :: renderField t2 :: (ts2.map renderField))
          ++ '\n' :: rest) [] r acc = _
      unfold renderLine
      rw [if_neg (by simp)]
      have hassoc : (renderField tok ++
          ',' :: renderLine (renderField t2 :: ts2.map renderField)) ++
            '\n' :: rest =
          renderField tok ++ ',' ::
            (renderLine (renderField t2 :: ts2.map renderField) ++
              '\n' :: rest) := by
        simp
      rw [hassoc]
      rw [scan_field tok
        (',' :: (renderLine (renderField t2 :: ts2.map renderField) ++
          '\n' :: rest)) r acc
        (fun c2 cs2 he => Or.inl (by injection he with h1 h2; exact h1.symm))]
      rw [scanCSV, if_pos rfl]
      have := ih (by simp) (tok.reverse.reverse :: r) rest acc
      rw [show ((t2 :: ts2).map renderField) = renderField t2 :: ts2.map renderField
        from rfl] at this
      rw [this]
      congr 2
      simp

theorem scan_lines (lines : List (List Str)) (hne : ∀ rec ∈ lines, rec ≠ []) :
    ∀ acc : List (List Str),
    scanCSV ScanMode.plain
        ((lines.map (fun toks => renderLine (toks.map renderField) ++ ['\n'])).flatten)
        [] [] acc =
      acc.reverse ++ lines := by
  induction lines with
  | nil =>
    intro acc
    show scanCSV ScanMode.plain [] [] [] acc = _
    rw [scanCSV, if_pos ⟨rfl, rfl⟩]
    simp
  | cons toks rest ih =>
    intro acc
    show scanCSV ScanMode.plain
      ((renderLine (toks.map renderField) ++ ['\n']) ++
        (rest.map (fun toks => renderLine (toks.map renderField) ++ ['\n'])).flatten)
      [] [] acc = _
    have hassoc : (renderLine (toks.map renderField) ++ ['\n']) ++
        (rest.map (fun toks => renderLine (toks.map renderField) ++ ['\n'])).flatten =
        renderLine (toks.map renderField) ++ '\n' ::
          (rest.map (fun toks => renderLine (toks.map renderField) ++ ['\n'])).flatten := by
      simp
    rw [hassoc]
    rw [scan_line toks (hne toks (by simp)) []
      ((rest.map (fun toks => renderLine (toks.map renderField) ++ ['\n'])).flatten) acc]
    rw [ih (fun rec hrec => hne rec (by simp [hrec]))]
    simp

/-- The function `writeCsv` is the rendering of the table's token records. -/
theorem writeCsv_eq_tokenLines (t : Table) :
    writeCsv t =
      ((tokenLines t).map
        (fun toks => renderLine (toks.map renderField) ++ ['\n'])).flatten := by
  unfold writeCsv tokenLines
  rw [List.map_cons, List.flatten_cons, List.map_map]
  have hfun : ((fun toks : List Str => renderLine (toks.map renderField) ++ ['\n']) ∘
      (fun row : List Cell => row.map cellToken)) =
      (fun row : List Cell => renderLine (row.map renderCell) ++ ['\n']) := by
    funext row
    show renderLine ((row.map cellToken).map renderField) ++ ['\n'] = _
    rw [List.map_map]
    rfl
  rw [hfun]

/-- Scanning an exported table recovers exactly its token records. -/
theorem scan_writeCsv (t : Table) (hne : ∀ rec ∈ tokenLines t, rec ≠ []) :
    scanCSV ScanMode.plain (writeCsv t) [] [] [] = tokenLines t := by
  rw [writeCsv_eq_tokenLines]
  rw [scan_lines (tokenLines t) hne []]
  rfl

theorem range_map_eq {α : Type} (l : List α) (f : Nat → α)
    (h : ∀ j (hj : j < l.length), f j = l.get ⟨j, hj⟩) :
    (List.range l.length).map f = l := by
  induction l generalizing f with
  | nil => rfl
  | cons a l ih =>
    show (List.range (l.length + 1)).map f = a :: l
    rw [List.range_succ_eq_map, List.map_cons, List.map_map]
    congr 1
    · exact h 0 (by simp)
    · exact ih (f ∘ Nat.succ) (fun j hj => h (j + 1) (by simpa using hj))

theorem intRepr_ne_nil (n : ℤ) : intRepr n ≠ [] := by
  unfold intRepr
  by_cases h : n < 0
  · rw [if_pos h]; simp
  · rw [if_neg h]; exact natRepr_ne_nil n.natAbs

theorem isNA_intRepr (n : ℤ) : isNA (intRepr n) = false := by
  have hno : ∀ s ∈ naTokens, isIntLit s = false := by decide
  unfold isNA
  rw [decide_eq_false_iff_not]
  intro hmem
  have := hno (intRepr n) hmem
  rw [isIntLit_intRepr n] at this
  exact absurd this (by simp)

theorem dropWhile_eq_self_of_all {p : Char → Bool} (s : Str)
    (h : ∀ c ∈ s, p c = false) : s.dropWhile p = s := by
  cases s with
  | nil => rfl
  | cons c cs =>
    rw [List.dropWhile_cons, h c (by simp)]
    simp

theorem stripWS_eq_self (s : Str) (h : ∀ c ∈ s, isWSChar c = false) :
    stripWS s = s := by
  unfold stripWS
  rw [dropWhile_eq_self_of_all s h,
    dropWhile_eq_self_of_all s.reverse
      (fun c hc => h c (List.mem_reverse.mp hc)),
    List.reverse_reverse]

theorem isWSChar_of_digit (c : Char) (h : c.isDigit = true) :
    isWSChar c = false := by
  cases hw : isWSChar c with
  | false => rfl
  | true =>
    exfalso
    unfold isWSChar at hw
    rcases (Bool.or_eq_true _ _).mp hw with h1 | h1
    · rw [decide_eq_true_eq] at h1
      rw [h1] at h
      exact absurd h (by decide)
    · rw [decide_eq_true_eq] at h1
      rw [h1] at h
      exact absurd h (by decide)

/-- The decimal rendering of an integer carries no surrounding
whitespace. -/
theorem stripWS_intRepr (n : ℤ) : stripWS (intRepr n) = intRepr n := by
  refine stripWS_eq_self _ ?_
  intro c hc
  unfold intRepr at hc
  by_cases hn : n < 0
  · rw [if_pos hn] at hc
    rcases List.mem_cons.mp hc with he | hm
    · rw [he]
      decide
    · exact isWSChar_of_digit c (natRepr_all_digits _ c hm)
  · rw [if_neg hn] at hc
    exact isWSChar_of_digit c (natRepr_all_digits _ c hc)

/-- The decimal rendering of an integer is a whitespace-padded
integer literal. -/
theorem wsIntLit_intRepr (n : ℤ) : wsIntLit (intRepr n) = true := by
  unfold wsIntLit
  rw [stripWS_intRepr]
  exact isIntLit_intRepr n

theorem fieldAt_map_cellToken (row : List Cell) (j : Nat) :
    fieldAt (row.map cellToken) j = cellToken (cellAt row j) := by
  unfold fieldAt cellAt
  rw [List.get?_eq_getElem?, List.get?_eq_getElem?, List.getElem?_map]
  cases row[j]? <;> rfl

/-- Reading text whose records are a header and rectangular rows
produces the typed table. -/
theorem readCsv_eq_of_records (text : Str) (hd : List Str)
    (rows : List (List Str)) (hrec : csvRecords text = hd :: rows)
    (hlen : rows.all (fun rec => decide (rec.length ≤ hd.length)) = true)
    (hgate : (List.range hd.length).all (fun j => !colRetyped rows j)
      = true) :
    readCsv text = some (Table.mk hd (rows.map (fun rec =>
      (List.range hd.length).map (fun j =>
        typeCell (colNumeric rows j) (fieldAt rec j))))) := by
  unfold readCsv
  rw [hrec]
  show (if rows.all (fun rec => rec.length ≤ hd.length) then
      (if (List.range hd.length).all (fun j => !colRetyped rows j) then
        some (Table.mk hd (rows.map (fun rec =>
          (List.range hd.length).map (fun j =>
            typeCell (colNumeric rows j) (fieldAt rec j)))))
      else none)
    else none) = _
  rw [if_pos (by simpa using hlen), if_pos hgate]

/-- The data-explorer sample: `a,v` over rows `x,7` and `y,q`; the
`q` cell keeps column `v` a text column, so `7` parses as the text
cell `"7"`. -/
def explorerSample : Table :=
  (readCsv "a,v\nx,7\ny,q\n".data).getD (Table.mk [] [])

/-- The filtered view: only the rows whose `a` cell is `x`. -/
def explorerView : Table :=
  filterIsin explorerSample "a".data [Cell.str "x".data]

/-- The data-explorer sample with a float literal: `a,v` over rows
`x,1.5` and `y,q`; the `q` cell keeps column `v` a text column, so
`1.5` parses as the text cell `"1.5"`. -/
def floatSample : Table :=
  (readCsv "a,v\nx,1.5\ny,q\n".data).getD (Table.mk [] [])

/-- The filtered view of `floatSample`: only the rows whose `a`
cell is `x`. -/
def floatView : Table :=
  filterIsin floatSample "a".data [Cell.str "x".data]

end CHEDS
